import Mathlib

/-!
# mksql: rows of a table rendered through one template

A shallow embedding of `main.go`.  The program reads a table (`.csv` or
`.xlsx`) into a sequence of rows (`[]map[string]string`), parses one template
(`.sql`) with `html/template`, and writes the template once per row to an
`io.Writer`, each rendering followed by a newline.

The Go libraries the program calls are part of the embedding's environment:

* `io.Writer` is a `Writer`: a transition function on a device state which
  either accepts a whole chunk or fails after accepting some leading bytes;
* a parsed `*template.Template` is a `Template`: for a row it yields the
  chunks it writes, in order, and the error (if any) with which evaluation
  stops after them;
* `template.New("sql").Parse` is the `Parse` field of an `Engine`;
  `htmlTemplate` is the engine of `html/template` on templates made of plain
  text and field actions;
* a `csv.Reader` is the list of records its file lexes into together with its
  `FieldsPerRecord`, and `readRecord` is one call of `Read`;
* the file system (`os.Open`, `ioutil.ReadFile`, `xlsx.OpenFile`) is a
  `FileSystem`, a record of lookup functions by path.

Go strings are taken to be valid UTF-8 and are Lean strings; `len(s) > 0` is
then `s.length > 0`.
-/

namespace Mksql

/-! ## Errors -/

/-- Go `error` values that the program creates or passes on. -/
inductive Err where
  /-- `fmt.Errorf("no input found")`, created in `New`. -/
  | noInputFound
  /-- `csv.ErrFieldCount` ("wrong number of fields"). -/
  | fieldCount
  /-- An error returned by `template.Parse`. -/
  | templateParse (msg : String)
  /-- Any other error of the operating system or of a library. -/
  | external (msg : String)
  deriving DecidableEq, Repr

/-- Outcome of a Go call that returns `(value, error)` and may also panic. -/
inductive Res (α : Type) where
  | ok (a : α)
  | error (e : Err)
  | panic

/-- A Go `(value, error)` pair as an outcome. -/
def Res.ofExcept {α : Type} : Except Err α → Res α
  | Except.ok a => Res.ok a
  | Except.error err => Res.error err

/-! ## Rows: `map[string]string` -/

/-- A Go `map[string]string`, kept as an association list with one entry per
key.  The program never ranges over a map, so the order of entries is not
observable. -/
abbrev Row := List (String × String)

/-- The statement `entry[k] = v`: overwrite the entry of `k`, or add one. -/
def Row.set : Row → String → String → Row
  | [], k, v => [(k, v)]
  | (k0, v0) :: rest, k, v =>
    if k0 = k then (k, v) :: rest else (k0, v0) :: Row.set rest k v

/-- The lookup `entry[k]` with the "comma ok" form: `none` when `k` is absent. -/
def Row.get? : Row → String → Option String
  | [], _ => none
  | (k0, v0) :: rest, k => if k0 = k then some v0 else Row.get? rest k

/-- The keys of the map. -/
def Row.keys (m : Row) : List String := m.map Prod.fst

/-- Go `len(m)`: the number of keys. -/
def Row.len (m : Row) : Nat := m.length

/-! ## `io.Writer` -/

/-- What one call `w.Write(p)` does to the bytes of `p`. -/
inductive WriteOutcome where
  /-- All of `p` was accepted; the call returns `(len(p), nil)`. -/
  | ok
  /-- Only the first `n` bytes of `p` were accepted; the call returns `err`. -/
  | fail (n : Nat) (err : Err)
  deriving DecidableEq, Repr

/-- An `io.Writer` with device state `σ`. -/
structure Writer (σ : Type) where
  step : σ → String → σ × WriteOutcome

/-- A writer's device state together with the bytes the device has accepted so
far, in order. -/
structure Sink (σ : Type) where
  state : σ
  written : String

/-- The call `w.Write(p)`. -/
def Writer.Write {σ : Type} (w : Writer σ) (s : Sink σ) (p : String) :
    Sink σ × Option Err :=
  match w.step s.state p with
  | (st, WriteOutcome.ok) => (⟨st, s.written ++ p⟩, none)
  | (st, WriteOutcome.fail n err) => (⟨st, s.written ++ String.mk (p.data.take n)⟩, some err)

/-- A writer none of whose calls fails. -/
def Writer.neverFails {σ : Type} (w : Writer σ) : Prop :=
  ∀ st p, (w.step st p).2 = WriteOutcome.ok

/-- A `*bytes.Buffer`: every write is accepted. -/
def bytesBuffer : Writer Unit := ⟨fun _ _ => ((), WriteOutcome.ok)⟩

/-- An empty `bytes.Buffer{}`. -/
def emptyBuffer : Sink Unit := ⟨(), ""⟩

/-- A writer that accepts `cap` bytes in all and fails with `err` on the call
that would exceed them, after accepting what still fits. -/
def limitedWriter (err : Err) : Writer Nat :=
  ⟨fun cap p =>
    if p.length ≤ cap then (cap - p.length, WriteOutcome.ok)
    else (0, WriteOutcome.fail cap err)⟩

/-! ## Templates -/

/-- A parsed `*template.Template`, by what `Execute` does with a row: the
chunks it writes, in order, and the error, if any, with which evaluation stops
once those chunks are out. -/
structure Template where
  eval : Row → List String × Option Err

/-- Write the chunks in order; stop at the first write that fails. -/
def writeChunks {σ : Type} (w : Writer σ) : Sink σ → List String → Sink σ × Option Err
  | s, [] => (s, none)
  | s, c :: cs =>
    match w.Write s c with
    | (s1, some err) => (s1, some err)
    | (s1, none) => writeChunks w s1 cs

/-- The call `tmpl.Execute(w, data)`. -/
def Template.Execute {σ : Type} (t : Template) (w : Writer σ) (s : Sink σ) (data : Row) :
    Sink σ × Option Err :=
  match writeChunks w s (t.eval data).1 with
  | (s1, some err) => (s1, some err)
  | (s1, none) => (s1, (t.eval data).2)

/-- The concatenation of a list of strings, in order. -/
def concatAll : List String → String
  | [] => ""
  | c :: cs => c ++ concatAll cs

/-- The text a template renders for a row: all its chunks, concatenated. -/
def Template.render (t : Template) (data : Row) : String :=
  concatAll (t.eval data).1

/-- The template library: `template.New("sql").Parse(text)`. -/
structure Engine where
  Parse : String → Except Err Template

/-! ## The parser (`main.go`) -/

/-- The struct `Parser`. -/
structure Parser where
  inputs : List Row
  tmpl : Template

/-- The body of the loop of `Parser.Write` for one row: execute the template,
then write the newline. -/
def writeRow {σ : Type} (tmpl : Template) (w : Writer σ) (s : Sink σ) (data : Row) :
    Sink σ × Option Err :=
  match tmpl.Execute w s data with
  | (s1, some err) => (s1, some err)
  | (s1, none) => w.Write s1 "\n"

/-- The loop `for _, data := range p.inputs` of `Parser.Write`, returning at
the first error. -/
def writeRows {σ : Type} (tmpl : Template) (w : Writer σ) :
    List Row → Sink σ → Sink σ × Option Err
  | [], s => (s, none)
  | data :: rest, s =>
    match writeRow tmpl w s data with
    | (s1, some err) => (s1, some err)
    | (s1, none) => writeRows tmpl w rest s1

/-- The method `(p *Parser) Write(w io.Writer) error`. -/
def Parser.Write {σ : Type} (p : Parser) (w : Writer σ) (s : Sink σ) : Sink σ × Option Err :=
  writeRows p.tmpl w p.inputs s

/-- The function `New`. -/
def New (E : Engine) (inputs : List Row) (sql : String) : Except Err Parser :=
  match E.Parse sql with
  | Except.error err => Except.error err
  | Except.ok tmpl =>
    if inputs.length = 0 then Except.error Err.noInputFound
    else Except.ok ⟨inputs, tmpl⟩

/-- The text `Parser.Write` is to produce for a row sequence: every row's
rendering followed by one newline, in order. -/
def expectedOutput (tmpl : Template) (rows : List Row) : String :=
  concatAll (rows.map (fun r => tmpl.render r ++ "\n"))

/-- The body of `main` after `Dir`, on a parser built by `New`: write to an
empty `bytes.Buffer` and take `buf.String()`.  `none` when `New` or `Write`
returns an error. -/
def pipelineOutput (E : Engine) (inputs : List Row) (sql : String) : Option String :=
  match New E inputs sql with
  | Except.error _ => none
  | Except.ok p =>
    match p.Write bytesBuffer emptyBuffer with
    | (s, none) => some s.written
    | (_, some _) => none

/-- The error of an outcome, if it is one. -/
def Res.err? {α : Type} : Res α → Option Err
  | Res.error e => some e
  | _ => none

/-! ## `strings.TrimSpace` and `path.Ext` -/

/-- Go `unicode.IsSpace`. -/
def isSpace (c : Char) : Bool :=
  let n := c.toNat
  n = 9 || n = 10 || n = 11 || n = 12 || n = 13 || n = 32 || n = 0x85 || n = 0xA0 ||
  n = 0x1680 || (0x2000 ≤ n && n ≤ 0x200A) || n = 0x2028 || n = 0x2029 || n = 0x202F ||
  n = 0x205F || n = 0x3000

/-- Go `strings.TrimSpace`: drop leading and trailing white space. -/
def TrimSpace (s : String) : String :=
  String.mk ((s.data.dropWhile isSpace).reverse.dropWhile isSpace).reverse

/-- The loop of `path.Ext`, over the path read backwards; `acc` is what has
been passed, in path order. -/
def extLoop : List Char → List Char → String
  | [], _ => ""
  | c :: rest, acc =>
    if c = '/' then ""
    else if c = '.' then String.mk ('.' :: acc)
    else extLoop rest (c :: acc)

/-- Go `path.Ext`: the suffix from the last dot of the last path element. -/
def Ext (path : String) : String := extLoop path.data.reverse []

/-! ## `encoding/csv` -/

/-- What the lexer of `encoding/csv` makes of one record of the file, before
the field count is checked.  A record has one field or more. -/
inductive RawRecord where
  | fields (first : String) (more : List String)
  | malformed (err : Err)
  deriving DecidableEq, Repr

/-- What `r.Read()` returns when the input is not exhausted. -/
inductive ReadResult where
  /-- The pair `(record, nil)`. -/
  | record (rec : List String)
  /-- A non-nil error other than `io.EOF`. -/
  | failure (err : Err)
  deriving DecidableEq, Repr

/-- The end of `Reader.readRecord`: check the record against `FieldsPerRecord`,
or fix `FieldsPerRecord` by the first record when it is `0`.  Returns the new
`FieldsPerRecord`. -/
def checkFields (fieldsPerRecord : Int) (rec : List String) : Int × ReadResult :=
  if fieldsPerRecord > 0 then
    if (rec.length : Int) ≠ fieldsPerRecord then (fieldsPerRecord, ReadResult.failure Err.fieldCount)
    else (fieldsPerRecord, ReadResult.record rec)
  else if fieldsPerRecord = 0 then ((rec.length : Int), ReadResult.record rec)
  else (fieldsPerRecord, ReadResult.record rec)

/-- One call `r.Read()` on a reader whose next record is `raw`. -/
def readRecord (fieldsPerRecord : Int) : RawRecord → Int × ReadResult
  | RawRecord.malformed err => (fieldsPerRecord, ReadResult.failure err)
  | RawRecord.fields first more => checkFields fieldsPerRecord (first :: more)

/-! ## Spreadsheets and the file system -/

/-- A sheet of `github.com/tealeg/xlsx`: its rows, each row the `Value`s of its
cells. -/
structure Sheet where
  Rows : List (List String)
  deriving DecidableEq, Repr

/-- An opened workbook, `*xlsx.File`. -/
structure XlsxFile where
  Sheets : List Sheet
  deriving DecidableEq, Repr

/-- The files the program can open, by path. -/
structure FileSystem where
  /-- The call `os.Open` and the records `encoding/csv` lexes from the file. -/
  openCSV : String → Except Err (List RawRecord)
  /-- The call `ioutil.ReadFile`. -/
  readFile : String → Except Err String
  /-- The call `xlsx.OpenFile`. -/
  openXLSX : String → Except Err XlsxFile

/-! ## The table readers (`main.go`) -/

/-- The function `readSQL`. -/
def readSQL (fs : FileSystem) (file : String) : Except Err String :=
  fs.readFile file

/-- The loop `for i, val := range record { entry[header[i]] = val }`; `none`
is the panic of `header[i]` out of range. -/
def zipEntry (header : List String) : List String → Nat → Row → Option Row
  | [], _, entry => some entry
  | val :: rest, i, entry =>
    match header[i]? with
    | none => none
    | some key => zipEntry header rest (i + 1) (entry.set key val)

/-- The `for` loop of `readCSV`.  The reader is its pending records and its
`FieldsPerRecord`; `header` is `none` while the Go slice is `nil`.  On an
error Go returns the rows read so far beside it; `Files` drops them. -/
def readCSVLoop : List RawRecord → Int → Option (List String) → List Row → Res (List Row)
  | [], _, _, inputs => Res.ok inputs
  | raw :: pending, fieldsPerRecord, header, inputs =>
    match readRecord fieldsPerRecord raw with
    | (_, ReadResult.failure err) => Res.error err
    | (fpr, ReadResult.record record) =>
      match header with
      | none => readCSVLoop pending fpr (some record) inputs
      | some h =>
        match zipEntry h record 0 [] with
        | none => Res.panic
        | some entry => readCSVLoop pending fpr header (inputs ++ [entry])

/-- The function `readCSV`; `csv.NewReader` leaves `FieldsPerRecord` at `0`. -/
def readCSV (fs : FileSystem) (file : String) : Res (List Row) :=
  match fs.openCSV file with
  | Except.error err => Res.error err
  | Except.ok pending => readCSVLoop pending 0 none []

/-- The loop `for i, key := range headers` of `readXLSX` over one grid row:
the entry built and the flag `hasVal`. -/
def xlsxEntry (cells : List String) : List String → Nat → Row → Bool → Row × Bool
  | [], _, entry, hasVal => (entry, hasVal)
  | key :: keys, i, entry, hasVal =>
    if i ≥ cells.length then xlsxEntry cells keys (i + 1) (entry.set key "") hasVal
    else
      let val := cells.getD i ""
      xlsxEntry cells keys (i + 1) (entry.set key (TrimSpace val)) (decide (val.length > 0))

/-- The loop `for ri, row := range xlFile.Sheets[0].Rows` of `readXLSX`. -/
def xlsxRows : List (List String) → Nat → List String → List Row → List Row
  | [], _, _, inputs => inputs
  | row :: rest, ri, headers, inputs =>
    if ri = 0 then xlsxRows rest (ri + 1) (headers ++ row) inputs
    else
      match xlsxEntry row headers 0 [] false with
      | (entry, true) => xlsxRows rest (ri + 1) headers (inputs ++ [entry])
      | (_, false) => xlsxRows rest (ri + 1) headers inputs

/-- The function `readXLSX`; `Sheets[0]` panics on a workbook without sheets. -/
def readXLSX (fs : FileSystem) (file : String) : Res (List Row) :=
  match fs.openXLSX file with
  | Except.error err => Res.error err
  | Except.ok xlFile =>
    match xlFile.Sheets with
    | [] => Res.panic
    | sheet :: _ => Res.ok (xlsxRows sheet.Rows 0 [] [])

/-! ## The source selector (`main.go`) -/

/-- The loop `for _, file := range files` of `Files`, from the current values
of `inputs` and `tmpl`: the two values handed to `New`. -/
def filesLoop (fs : FileSystem) : List String → List Row → String → Res (List Row × String)
  | [], inputs, tmpl => Res.ok (inputs, tmpl)
  | file :: rest, inputs, tmpl =>
    if Ext file = ".csv" then
      match readCSV fs file with
      | Res.ok rows => filesLoop fs rest rows tmpl
      | Res.error err => Res.error err
      | Res.panic => Res.panic
    else if Ext file = ".sql" then
      match readSQL fs file with
      | Except.ok text => filesLoop fs rest inputs text
      | Except.error err => Res.error err
    else if Ext file = ".xlsx" then
      match readXLSX fs file with
      | Res.ok rows => filesLoop fs rest rows tmpl
      | Res.error err => Res.error err
      | Res.panic => Res.panic
    else filesLoop fs rest inputs tmpl

/-- The function `Files`. -/
def Files (E : Engine) (fs : FileSystem) (files : List String) : Res Parser :=
  match filesLoop fs files [] "" with
  | Res.error err => Res.error err
  | Res.panic => Res.panic
  | Res.ok (inputs, tmpl) => Res.ofExcept (New E inputs tmpl)

/-- Every file of the list that `Files` reads is read without error. -/
def readsSucceed (fs : FileSystem) (files : List String) : Prop :=
  ∀ f ∈ files,
    (Ext f = ".csv" → ∃ rows, readCSV fs f = Res.ok rows) ∧
    (Ext f = ".sql" → ∃ text, readSQL fs f = Except.ok text) ∧
    (Ext f = ".xlsx" → ∃ rows, readXLSX fs f = Res.ok rows)

/-- A table file, and the rows read from it. -/
def tableRows (fs : FileSystem) (f : String) (rows : List Row) : Prop :=
  (Ext f = ".csv" ∧ readCSV fs f = Res.ok rows) ∨
  (Ext f = ".xlsx" ∧ readXLSX fs f = Res.ok rows)

/-- A file that is not a table file. -/
def notTable (f : String) : Prop := Ext f ≠ ".csv" ∧ Ext f ≠ ".xlsx"

/-! ## `html/template` on text and field actions

The fragment modelled: templates whose text holds no `<` (so that the escaper
stays in the HTML text context throughout) and whose actions are a single
field of the row, `{{.name}}`, possibly with blanks around it. -/

/-- A node of the parsed template. -/
inductive Node where
  /-- Literal text, written as it stands. -/
  | text (s : String)
  /-- The action `{{.name}}`. -/
  | field (name : String)
  deriving DecidableEq, Repr

/-- The entry of `htmlReplacementTable` for a character, or the character
itself when the table has none. -/
def htmlReplace (c : Char) : List Char :=
  let n := c.toNat
  if n = 0 then [Char.ofNat 0xFFFD]
  else if n = 34 then "&#34;".data
  else if n = 38 then "&amp;".data
  else if n = 39 then "&#39;".data
  else if n = 43 then "&#43;".data
  else if n = 60 then "&lt;".data
  else if n = 62 then "&gt;".data
  else [c]

/-- The escaper, character by character. -/
def htmlEscapeChars : List Char → List Char
  | [] => []
  | c :: cs => htmlReplace c ++ htmlEscapeChars cs

/-- The escaper `html/template` puts on an action in HTML text context. -/
def htmlEscape (s : String) : String :=
  String.mk (htmlEscapeChars s.data)

/-- A character that may stand in a field name. -/
def isNameChar (c : Char) : Bool :=
  c.isAlphanum || c = '_'

/-- The content of an action, read as a field: blanks, a dot, a name that does
not start with a digit, blanks.  `none` for any other action. -/
def actionField (content : List Char) : Option String :=
  let isBlank := fun (c : Char) => c = ' ' || c = '\t'
  match ((content.dropWhile isBlank).reverse.dropWhile isBlank).reverse with
  | '.' :: c :: cs =>
    if isNameChar c && !c.isDigit && cs.all isNameChar then some (String.mk (c :: cs))
    else none
  | _ => none

/-- The lexer and parser in one pass over the template text.  `inAction` says
whether a `{{` is open; `acc` is the text or action content read so far,
backwards; `nodes` are the nodes finished so far, backwards. -/
def parseLoop : List Char → Bool → List Char → List Node → Except Err (List Node)
  | [], false, acc, nodes =>
    Except.ok (if acc = [] then nodes else Node.text (String.mk acc.reverse) :: nodes).reverse
  | [], true, _, _ => Except.error (Err.templateParse "unclosed action")
  | [c], false, acc, nodes =>
    if c = '<' then Except.error (Err.external "html/template: text with a tag is not modelled")
    else Except.ok (Node.text (String.mk (c :: acc).reverse) :: nodes).reverse
  | [_], true, _, _ => Except.error (Err.templateParse "unclosed action")
  | c :: d :: rest, false, acc, nodes =>
    if c = '{' && d = '{' then
      parseLoop rest true [] (if acc = [] then nodes else Node.text (String.mk acc.reverse) :: nodes)
    else if c = '<' then Except.error (Err.external "html/template: text with a tag is not modelled")
    else parseLoop (d :: rest) false (c :: acc) nodes
  | c :: d :: rest, true, acc, nodes =>
    if c = '}' && d = '}' then
      match actionField acc.reverse with
      | some name => parseLoop rest false [] (Node.field name :: nodes)
      | none => Except.error (Err.external "html/template: action is not modelled")
    else parseLoop (d :: rest) true (c :: acc) nodes

/-- What `Execute` writes for one node: the text itself, or the escaped value
of the field.  `noValue` is what the library prints for a key the row lacks. -/
def evalNode (noValue : String) (data : Row) : Node → String
  | Node.text s => s
  | Node.field name =>
    match data.get? name with
    | some v => htmlEscape v
    | none => noValue

/-- The template of a list of nodes: one chunk per node, and no error. -/
def compile (noValue : String) (nodes : List Node) : Template :=
  ⟨fun data => (nodes.map (evalNode noValue data), none)⟩

/-- The engine of `html/template` on the fragment. -/
def htmlTemplate (noValue : String) : Engine :=
  ⟨fun text =>
    match parseLoop text.data false [] [] with
    | Except.error err => Except.error err
    | Except.ok nodes => Except.ok (compile noValue nodes)⟩

/-- The template of Scenario A. -/
def insertTemplate : String :=
  "INSERT INTO t VALUES (\x7b\x7b.id\x7d\x7d, '\x7b\x7b.name\x7d\x7d');"

/-- The value of a column of a row, empty when the row lacks the column. -/
def Row.value (r : Row) (k : String) : String := (r.get? k).getD ""

/-- The line of Scenario A for a row, with the values as they stand. -/
def plainLine (r : Row) : String :=
  "INSERT INTO t VALUES (" ++ r.value "id" ++ ", '" ++ r.value "name" ++ "');"

/-- The line of Scenario A for a row, with the values HTML-escaped. -/
def escapedLine (r : Row) : String :=
  "INSERT INTO t VALUES (" ++ htmlEscape (r.value "id") ++ ", '" ++
    htmlEscape (r.value "name") ++ "');"

/-- A row that has the columns `id` and `name`. -/
def hasIdName (r : Row) : Prop :=
  (∃ v, r.get? "id" = some v) ∧ (∃ v, r.get? "name" = some v)

/-- A value in which the escaper finds nothing to replace. -/
def escapeFree (v : String) : Bool :=
  v.data.all (fun c => htmlReplace c == [c])

/-- The rows of Scenario A. -/
def aliceBob : List Row :=
  [[("id", "1"), ("name", "Alice")], [("id", "2"), ("name", "Bob")]]

/-- A table with a name that holds an apostrophe. -/
def obrien : List Row :=
  [[("id", "1"), ("name", "O'Brien")]]

/-- A template of one text and one field. -/
def labelTemplate : Template :=
  compile "" [Node.text "x=", Node.field "id"]

/-- What links a record after the header to the Row built from it. -/
def csvRowOf (h : List String) (raw : RawRecord) (row : Row) : Prop :=
  ∃ first more, raw = RawRecord.fields first more ∧ (first :: more).length = h.length ∧
    zipEntry h (first :: more) 0 [] = some row

/-! ## Headers and sample files -/

/-- The header of a delimited-text file: the fields of its first record. -/
def csvHeader : List RawRecord → List String
  | RawRecord.fields first more :: _ => first :: more
  | _ => []

/-- The header of a workbook: the cell values of row 0 of its first sheet. -/
def xlsxHeader (xl : XlsxFile) : List String :=
  match xl.Sheets with
  | sheet :: _ => sheet.Rows.headD []
  | [] => []

/-- A file system whose every `.csv` path holds the given records. -/
def csvOnly (records : List RawRecord) : FileSystem :=
  ⟨fun _ => Except.ok records,
   fun _ => Except.error (Err.external "no such file"),
   fun _ => Except.error (Err.external "no such file")⟩

/-- A directory with two delimited-text tables and a template between them. -/
def twoTables : FileSystem :=
  ⟨fun f =>
    if f = "dir/a.csv" then Except.ok [RawRecord.fields "id" [], RawRecord.fields "1" []]
    else Except.ok [RawRecord.fields "id" [], RawRecord.fields "2" [], RawRecord.fields "3" []],
   fun _ => Except.ok "row \x7b\x7b.id\x7d\x7d",
   fun _ => Except.error (Err.external "no such file")⟩

/-- A directory whose template file holds an unclosed action and whose table
holds a header line only. -/
def brokenTemplate : FileSystem :=
  ⟨fun _ => Except.ok [RawRecord.fields "id" ["name"]],
   fun _ => Except.ok "\x7b\x7b",
   fun _ => Except.error (Err.external "no such file")⟩

/-- A file system whose every `.xlsx` path holds one sheet with the given
rows. -/
def xlsxOnly (rows : List (List String)) : FileSystem :=
  ⟨fun _ => Except.error (Err.external "no such file"),
   fun _ => Except.error (Err.external "no such file"),
   fun _ => Except.ok ⟨[⟨rows⟩]⟩⟩

/-! ## One grid row of a spreadsheet -/

/-- The body of the row loop of `readXLSX` for one data row: the Row that is
appended, or `none` when `hasVal` ends `false` and the row is dropped. -/
def xlsxRowOf (headers cells : List String) : Option Row :=
  match xlsxEntry cells headers 0 [] false with
  | (entry, true) => some entry
  | (_, false) => none

/-- The cell the column loop examines last: the one at the highest header
column index at which the grid row has a cell; `none` when there is none. -/
def lastExamined (headers cells : List String) : Option String :=
  if min headers.length cells.length = 0 then none
  else cells[min headers.length cells.length - 1]?

/-- The value the column loop stores for column index `i`. -/
def cellValue (cells : List String) (i : Nat) : String :=
  if i ≥ cells.length then "" else TrimSpace (cells.getD i "")

/-- A directory with a workbook that holds one data row and a delimited-text
table that holds its header line only. -/
def mixedTables : FileSystem :=
  ⟨fun _ => Except.ok [RawRecord.fields "id" []],
   fun _ => Except.ok "",
   fun _ => Except.ok ⟨[⟨[["id"], ["1"]]⟩]⟩⟩

/-! ## Runs of the render loop without a failure -/

/-- From sink `s`, the template executes and the newline is written for each
of the rows in turn, no call returning an error, and the sink ends as `s1`. -/
def rowsSucceed {σ : Type} (tmpl : Template) (w : Writer σ) : List Row → Sink σ → Sink σ → Prop
  | [], s, s1 => s1 = s
  | data :: rest, s, s1 =>
    ∃ sa sb, tmpl.Execute w s data = (sa, none) ∧ w.Write sa "\n" = (sb, none) ∧
      rowsSucceed tmpl w rest sb s1

/-- A template of one text and one action whose evaluation fails on a row
without the column `id`, after the text is out. -/
def strictTemplate : Template :=
  ⟨fun data =>
    match data.get? "id" with
    | some v => (["x=", v], none)
    | none => (["x="], some (Err.external "no column id"))⟩

/-! ## Lemmas on writing -/

theorem Writer.Write_ok {σ : Type} (w : Writer σ) (s s1 : Sink σ) (p : String)
    (h : w.Write s p = (s1, none)) : s1.written = s.written ++ p := by
  unfold Writer.Write at h
  split at h
  · simp only [Prod.mk.injEq] at h
    rw [← h.1]
  · simp at h

theorem Writer.Write_extends {σ : Type} (w : Writer σ) (s : Sink σ) (p : String) :
    ∃ t, (w.Write s p).1.written = s.written ++ t := by
  unfold Writer.Write
  split
  · exact ⟨p, rfl⟩
  · rename_i n _ _
    exact ⟨String.mk (p.data.take n), rfl⟩

theorem writeChunks_ok {σ : Type} (w : Writer σ) (cs : List String) (s s1 : Sink σ)
    (h : writeChunks w s cs = (s1, none)) : s1.written = s.written ++ concatAll cs := by
  induction cs generalizing s with
  | nil =>
    simp only [writeChunks, Prod.mk.injEq] at h
    simp [← h.1, concatAll]
  | cons c cs ih =>
    simp only [writeChunks] at h
    split at h
    · simp at h
    · rename_i s2 hw
      rw [ih s2 h, Writer.Write_ok w s s2 c hw]
      simp [concatAll, String.append_assoc]

theorem writeChunks_extends {σ : Type} (w : Writer σ) (cs : List String) (s : Sink σ) :
    ∃ t, (writeChunks w s cs).1.written = s.written ++ t := by
  induction cs generalizing s with
  | nil => exact ⟨"", by simp [writeChunks]⟩
  | cons c cs ih =>
    obtain ⟨t1, h1⟩ := Writer.Write_extends w s c
    simp only [writeChunks]
    split
    · rename_i s1 err hw
      rw [hw] at h1
      exact ⟨t1, h1⟩
    · rename_i s1 hw
      rw [hw] at h1
      obtain ⟨t2, h2⟩ := ih s1
      exact ⟨t1 ++ t2, by rw [h2, h1, String.append_assoc]⟩

theorem Execute_ok {σ : Type} (t : Template) (w : Writer σ) (s s1 : Sink σ) (data : Row)
    (h : t.Execute w s data = (s1, none)) : s1.written = s.written ++ t.render data := by
  unfold Template.Execute at h
  split at h
  · simp at h
  · rename_i s2 hw
    simp only [Prod.mk.injEq] at h
    rw [← h.1]
    exact writeChunks_ok w _ s s2 hw

theorem Execute_extends {σ : Type} (t : Template) (w : Writer σ) (s : Sink σ) (data : Row) :
    ∃ x, (t.Execute w s data).1.written = s.written ++ x := by
  obtain ⟨x, hx⟩ := writeChunks_extends w (t.eval data).1 s
  unfold Template.Execute
  split
  · rename_i s1 err hw
    rw [hw] at hx
    exact ⟨x, hx⟩
  · rename_i s1 hw
    rw [hw] at hx
    exact ⟨x, hx⟩

theorem writeRow_ok {σ : Type} (t : Template) (w : Writer σ) (s s1 : Sink σ) (data : Row)
    (h : writeRow t w s data = (s1, none)) :
    s1.written = s.written ++ (t.render data ++ "\n") := by
  unfold writeRow at h
  split at h
  · simp at h
  · rename_i s2 he
    rw [Writer.Write_ok w s2 s1 "\n" h, Execute_ok t w s s2 data he, String.append_assoc]

theorem writeRow_extends {σ : Type} (t : Template) (w : Writer σ) (s : Sink σ) (data : Row) :
    ∃ x, (writeRow t w s data).1.written = s.written ++ x := by
  obtain ⟨x, hx⟩ := Execute_extends t w s data
  unfold writeRow
  split
  · rename_i s1 err he
    rw [he] at hx
    exact ⟨x, hx⟩
  · rename_i s1 he
    rw [he] at hx
    obtain ⟨y, hy⟩ := Writer.Write_extends w s1 "\n"
    exact ⟨x ++ y, by rw [hy, hx, String.append_assoc]⟩

theorem writeRows_ok {σ : Type} (t : Template) (w : Writer σ) (rows : List Row)
    (s s1 : Sink σ) (h : writeRows t w rows s = (s1, none)) :
    s1.written = s.written ++ expectedOutput t rows := by
  induction rows generalizing s with
  | nil =>
    simp only [writeRows, Prod.mk.injEq] at h
    simp [← h.1, expectedOutput, concatAll]
  | cons r rows ih =>
    simp only [writeRows] at h
    split at h
    · simp at h
    · rename_i s2 hr
      rw [ih s2 h, writeRow_ok t w s s2 r hr]
      simp [expectedOutput, concatAll, String.append_assoc]

theorem writeRows_append {σ : Type} (t : Template) (w : Writer σ) (pre post : List Row)
    (s s1 : Sink σ) (h : writeRows t w pre s = (s1, none)) :
    writeRows t w (pre ++ post) s = writeRows t w post s1 := by
  induction pre generalizing s with
  | nil =>
    simp only [writeRows, Prod.mk.injEq] at h
    simp [h.1]
  | cons r pre ih =>
    simp only [writeRows] at h
    simp only [List.cons_append, writeRows]
    split at h
    · simp at h
    · exact ih _ h

theorem Writer.Write_neverFails {σ : Type} (w : Writer σ) (hw : w.neverFails)
    (s : Sink σ) (p : String) : (w.Write s p).2 = none := by
  have h := hw s.state p
  unfold Writer.Write
  split
  · rfl
  · rename_i heq
    rw [heq] at h
    simp at h

theorem writeChunks_neverFails {σ : Type} (w : Writer σ) (hw : w.neverFails)
    (cs : List String) (s : Sink σ) : (writeChunks w s cs).2 = none := by
  induction cs generalizing s with
  | nil => rfl
  | cons c cs ih =>
    have h := Writer.Write_neverFails w hw s c
    simp only [writeChunks]
    split
    · rename_i heq
      rw [heq] at h
      simp at h
    · exact ih _

theorem writeRow_neverFails {σ : Type} (t : Template) (w : Writer σ) (hw : w.neverFails)
    (s : Sink σ) (data : Row) (hr : (t.eval data).2 = none) :
    (writeRow t w s data).2 = none := by
  have h := writeChunks_neverFails w hw (t.eval data).1 s
  unfold writeRow Template.Execute
  split
  · rename_i heq
    split at heq
    · rename_i heq2
      rw [heq2] at h
      simp at h
    · simp only [Prod.mk.injEq] at heq
      rw [hr] at heq
      simp at heq
  · exact Writer.Write_neverFails w hw _ _

theorem writeRows_neverFails {σ : Type} (t : Template) (w : Writer σ) (hw : w.neverFails)
    (rows : List Row) (s : Sink σ) (hr : ∀ r ∈ rows, (t.eval r).2 = none) :
    (writeRows t w rows s).2 = none := by
  induction rows generalizing s with
  | nil => rfl
  | cons r rows ih =>
    have h := writeRow_neverFails t w hw s r (hr r (List.mem_cons_self _ _))
    simp only [writeRows]
    split
    · rename_i heq
      rw [heq] at h
      simp at h
    · exact ih _ (fun r1 h1 => hr r1 (List.mem_cons_of_mem _ h1))

/-! ## The renderer: `Parser.Write` -/

/-- C1: when no rendering and no write fails, `Parser.Write` returns `nil`;
and whenever it returns `nil`, what it has appended to the sink is exactly the
rendering of every row followed by one newline, in row order, with nothing
before, between or after. -/
theorem Write_appends_rendered_rows {σ : Type} (p : Parser) (w : Writer σ) (s : Sink σ) :
    (w.neverFails → (∀ r ∈ p.inputs, (p.tmpl.eval r).2 = none) → (p.Write w s).2 = none) ∧
    ((p.Write w s).2 = none →
      (p.Write w s).1.written = s.written ++ expectedOutput p.tmpl p.inputs) := by
  refine ⟨fun hw hr => writeRows_neverFails p.tmpl w hw p.inputs s hr, fun h => ?_⟩
  unfold Parser.Write at h ⊢
  exact writeRows_ok p.tmpl w p.inputs s _ (Prod.ext rfl h)

theorem writeRows_of_rowsSucceed {σ : Type} (tmpl : Template) (w : Writer σ)
    (rows : List Row) (s s1 : Sink σ) (h : rowsSucceed tmpl w rows s s1) :
    writeRows tmpl w rows s = (s1, none) := by
  induction rows generalizing s with
  | nil =>
    simp only [rowsSucceed] at h
    rw [h]
    rfl
  | cons r rows ih =>
    obtain ⟨sa, sb, he, hn, hrest⟩ := h
    simp only [writeRows, writeRow, he, hn]
    exact ih sb hrest

theorem writeRow_of_failure {σ : Type} (tmpl : Template) (w : Writer σ) (s1 s2 : Sink σ)
    (rk : Row) (err : Err)
    (hk : tmpl.Execute w s1 rk = (s2, some err) ∨
      ∃ sm, tmpl.Execute w s1 rk = (sm, none) ∧ w.Write sm "\n" = (s2, some err)) :
    writeRow tmpl w s1 rk = (s2, some err) := by
  rcases hk with he | ⟨sm, he, hn⟩
  · simp only [writeRow, he]
  · simp only [writeRow, he, hn]

/-- C9: when, for every row before row `k`, the template executes and the
newline is written without error, and then either the execution of the
template on row `k` fails with `err` or it succeeds and the write of the
newline fails with `err`, `Parser.Write` returns `err` itself and leaves the
sink as that failing call left it, whatever rows follow; and the sink still
begins with what it held before followed by the renderings and newlines of
the rows before `k`. -/
theorem Write_stops_at_first_error {σ : Type} (tmpl : Template) (w : Writer σ)
    (pre post : List Row) (rk : Row) (s s1 s2 : Sink σ) (err : Err)
    (hpre : rowsSucceed tmpl w pre s s1)
    (hk : tmpl.Execute w s1 rk = (s2, some err) ∨
      ∃ sm, tmpl.Execute w s1 rk = (sm, none) ∧ w.Write sm "\n" = (s2, some err)) :
    Parser.Write ⟨pre ++ rk :: post, tmpl⟩ w s = (s2, some err) ∧
    ∃ rest, s2.written = s.written ++ expectedOutput tmpl pre ++ rest := by
  have hrows := writeRows_of_rowsSucceed tmpl w pre s s1 hpre
  have hrow := writeRow_of_failure tmpl w s1 s2 rk err hk
  constructor
  · unfold Parser.Write
    simp only
    rw [writeRows_append tmpl w pre (rk :: post) s s1 hrows]
    simp only [writeRows, hrow]
  · obtain ⟨x, hx⟩ := writeRow_extends tmpl w s1 rk
    rw [hrow] at hx
    exact ⟨x, by rw [hx, writeRows_ok tmpl w pre s s1 hrows]⟩

/-- Witness of C1 on a `bytes.Buffer` and two rows. -/
theorem Write_appends_rendered_rows_witness :
    (Parser.Write ⟨[[("id", "1")], [("id", "2")]], labelTemplate⟩ bytesBuffer emptyBuffer).2
        = none ∧
    (Parser.Write ⟨[[("id", "1")], [("id", "2")]], labelTemplate⟩ bytesBuffer emptyBuffer).1.written
        = "x=1\nx=2\n" :=
  ⟨rfl, ((Write_appends_rendered_rows ⟨[[("id", "1")], [("id", "2")]], labelTemplate⟩
    bytesBuffer emptyBuffer).2 rfl).trans (by decide)⟩

/-- Witness of C9, on three rows of which the second fails: once by the write
of its newline, on a writer with room for seven bytes, and once by the
execution of the template, on a row without the column `id`. -/
theorem Write_stops_at_first_error_witness :
    (Parser.Write ⟨[[("id", "1")]] ++ [("id", "2")] :: [[("id", "3")]], labelTemplate⟩
        (limitedWriter (Err.external "disk full")) ⟨7, ""⟩
        = (⟨0, "x=1\nx=2"⟩, some (Err.external "disk full"))) ∧
    (Parser.Write ⟨[[("id", "1")]] ++ [("name", "n")] :: [[("id", "3")]], strictTemplate⟩
        bytesBuffer emptyBuffer
        = (⟨(), "x=1\nx="⟩, some (Err.external "no column id"))) :=
  ⟨(Write_stops_at_first_error labelTemplate (limitedWriter (Err.external "disk full"))
      [[("id", "1")]] [[("id", "3")]] [("id", "2")] ⟨7, ""⟩ ⟨3, "x=1\n"⟩ ⟨0, "x=1\nx=2"⟩
      (Err.external "disk full") ⟨⟨4, "x=1"⟩, ⟨3, "x=1\n"⟩, rfl, rfl, rfl⟩
      (Or.inr ⟨⟨0, "x=1\nx=2"⟩, rfl, rfl⟩)).1,
    (Write_stops_at_first_error strictTemplate bytesBuffer
      [[("id", "1")]] [[("id", "3")]] [("name", "n")] emptyBuffer ⟨(), "x=1\n"⟩ ⟨(), "x=1\nx="⟩
      (Err.external "no column id") ⟨⟨(), "x=1"⟩, ⟨(), "x=1\n"⟩, rfl, rfl, rfl⟩
      (Or.inl rfl)).1⟩

/-! ## The pipeline on Scenario A -/

theorem writeRows_bytesBuffer (t : Template) (rows : List Row) (s : Sink Unit)
    (hr : ∀ r ∈ rows, (t.eval r).2 = none) :
    writeRows t bytesBuffer rows s = (⟨(), s.written ++ expectedOutput t rows⟩, none) := by
  have h2 := writeRows_neverFails t bytesBuffer (fun _ _ => rfl) rows s hr
  have h1 := writeRows_ok t bytesBuffer rows s _ (Prod.ext rfl h2)
  refine Prod.ext ?_ h2
  rw [← h1]

theorem pipelineOutput_eq (E : Engine) (t : Template) (rows : List Row) (sql : String)
    (hp : E.Parse sql = Except.ok t) (hne : rows ≠ [])
    (hr : ∀ r ∈ rows, (t.eval r).2 = none) :
    pipelineOutput E rows sql = some (expectedOutput t rows) := by
  have hlen : ¬ rows.length = 0 := by
    intro h
    exact hne (List.length_eq_zero.mp h)
  unfold pipelineOutput New
  simp only [hp, hlen, if_false]
  unfold Parser.Write
  simp only [writeRows_bytesBuffer t rows emptyBuffer hr]
  simp [emptyBuffer]

theorem insertTemplate_parse (noValue : String) :
    (htmlTemplate noValue).Parse insertTemplate =
      Except.ok (compile noValue [Node.text "INSERT INTO t VALUES (", Node.field "id",
        Node.text ", '", Node.field "name", Node.text "');"]) := rfl

theorem htmlEscapeChars_of_free (cs : List Char)
    (h : cs.all (fun c => htmlReplace c == [c]) = true) :
    htmlEscapeChars cs = cs := by
  induction cs with
  | nil => rfl
  | cons c cs ih =>
    simp only [List.all_cons, Bool.and_eq_true, beq_iff_eq] at h
    simp only [htmlEscapeChars, h.1, ih h.2, List.singleton_append]

theorem htmlEscape_of_free (v : String) (h : escapeFree v = true) : htmlEscape v = v := by
  unfold htmlEscape
  rw [htmlEscapeChars_of_free v.data h]

theorem insertTemplate_render (noValue : String) (r : Row) (h : hasIdName r) :
    (compile noValue [Node.text "INSERT INTO t VALUES (", Node.field "id",
        Node.text ", '", Node.field "name", Node.text "');"]).render r = escapedLine r := by
  obtain ⟨⟨i, hi⟩, ⟨n, hn⟩⟩ := h
  simp [Template.render, compile, evalNode, hi, hn, concatAll, escapedLine, Row.value,
    String.append_assoc]

theorem expectedOutput_congr (t : Template) (line : Row → String) (rows : List Row)
    (h : ∀ r ∈ rows, t.render r = line r) :
    expectedOutput t rows = concatAll (rows.map (fun r => line r ++ "\n")) := by
  unfold expectedOutput
  congr 1
  apply List.map_congr_left
  intro r hr
  rw [h r hr]

/-- What the code does on Scenario A: on rows that carry the columns `id` and
`name`, the pipeline emits one line per row, the template text with the two
actions replaced by the row's values after HTML escaping; when no value holds
a character the escaper replaces, the values stand as they are; and the rows
(1, Alice), (2, Bob) give the two lines of the scenario. -/
theorem insert_pipeline_escapes_values (noValue : String) (rows : List Row)
    (hne : rows ≠ []) (hcols : ∀ r ∈ rows, hasIdName r) :
    pipelineOutput (htmlTemplate noValue) rows insertTemplate
        = some (concatAll (rows.map (fun r => escapedLine r ++ "\n"))) ∧
    ((∀ r ∈ rows, escapeFree (r.value "id") = true ∧ escapeFree (r.value "name") = true) →
      pipelineOutput (htmlTemplate noValue) rows insertTemplate
        = some (concatAll (rows.map (fun r => plainLine r ++ "\n")))) ∧
    pipelineOutput (htmlTemplate noValue) aliceBob insertTemplate
        = some "INSERT INTO t VALUES (1, 'Alice');\nINSERT INTO t VALUES (2, 'Bob');\n" := by
  have hout := pipelineOutput_eq (htmlTemplate noValue) _ rows insertTemplate
    (insertTemplate_parse noValue) hne (fun _ _ => rfl)
  have hesc := expectedOutput_congr _ escapedLine rows
    (fun r hr => insertTemplate_render noValue r (hcols r hr))
  refine ⟨by rw [hout, hesc], fun hfree => ?_, rfl⟩
  rw [hout, hesc]
  congr 2
  apply List.map_congr_left
  intro r hr
  unfold escapedLine plainLine
  rw [htmlEscape_of_free _ (hfree r hr).1, htmlEscape_of_free _ (hfree r hr).2]

/-- The lines of Scenario A on a name with an apostrophe. -/
theorem insert_pipeline_escapes_values_witness :
    pipelineOutput (htmlTemplate "") obrien insertTemplate
      = some "INSERT INTO t VALUES (1, 'O&#39;Brien');\n" :=
  (insert_pipeline_escapes_values "" obrien (by decide)
    (by
      intro r hr
      simp only [obrien, List.mem_singleton] at hr
      subst hr
      exact ⟨⟨"1", rfl⟩, ⟨"O'Brien", rfl⟩⟩)).1.trans (by decide)

/-- C2, the code at the failing input: for the row (1, O'Brien) the template
of Scenario A names the value as plain text, and the pipeline emits the name
with its apostrophe replaced by `&#39;`, the escaping of `html/template`. -/
theorem insert_pipeline_escapes_apostrophe :
    pipelineOutput (htmlTemplate "") obrien insertTemplate
      = some "INSERT INTO t VALUES (1, 'O&#39;Brien');\n" ∧
    concatAll (obrien.map (fun r => plainLine r ++ "\n"))
      = "INSERT INTO t VALUES (1, 'O'Brien');\n" ∧
    (pipelineOutput (htmlTemplate "") obrien insertTemplate
      == some (concatAll (obrien.map (fun r => plainLine r ++ "\n")))) = false :=
  ⟨rfl, by decide, by decide⟩

/-! ## Lemmas on rows -/

theorem Row.keys_set (m : Row) (k v : String) :
    (m.set k v).keys = if k ∈ m.keys then m.keys else m.keys ++ [k] := by
  induction m with
  | nil => simp [Row.set, Row.keys]
  | cons e rest ih =>
    obtain ⟨k0, v0⟩ := e
    unfold Row.keys at ih ⊢
    by_cases h : k0 = k
    · simp [Row.set, h]
    · have h2 : ¬ k = k0 := fun h3 => h h3.symm
      simp only [Row.set, h, if_false, List.map_cons, ih, List.mem_cons, h2, false_or]
      split <;> simp

theorem Row.mem_keys_set (m : Row) (k v x : String) :
    x ∈ (m.set k v).keys ↔ x ∈ m.keys ∨ x = k := by
  rw [Row.keys_set]
  split
  · rename_i h
    constructor
    · exact fun hx => Or.inl hx
    · rintro (hx | hx)
      · exact hx
      · rw [hx]; exact h
  · simp

theorem Row.nodup_keys_set (m : Row) (k v : String) (h : m.keys.Nodup) :
    (m.set k v).keys.Nodup := by
  rw [Row.keys_set]
  split
  · exact h
  · rename_i hk
    rw [List.nodup_append]
    refine ⟨h, List.nodup_singleton k, ?_⟩
    intro a ha hb
    rw [List.mem_singleton] at hb
    exact hk (hb ▸ ha)

/-! ## Lemmas on `readXLSX` -/

theorem xlsxEntry_keys (cells : List String) (keys : List String) (i : Nat) (entry : Row)
    (hasVal : Bool) :
    (entry.keys.Nodup → (xlsxEntry cells keys i entry hasVal).1.keys.Nodup) ∧
    ∀ x, x ∈ (xlsxEntry cells keys i entry hasVal).1.keys ↔ x ∈ entry.keys ∨ x ∈ keys := by
  induction keys generalizing i entry hasVal with
  | nil => simp [xlsxEntry]
  | cons key keys ih =>
    unfold xlsxEntry
    split
    · obtain ⟨h1, h2⟩ := ih (i + 1) (entry.set key "") hasVal
      refine ⟨fun hn => h1 (Row.nodup_keys_set entry key "" hn), fun x => ?_⟩
      rw [h2 x, Row.mem_keys_set, List.mem_cons, or_assoc]
    · obtain ⟨h1, h2⟩ := ih (i + 1) (entry.set key (TrimSpace (cells.getD i "")))
        (decide ((cells.getD i "").length > 0))
      refine ⟨fun hn => h1 (Row.nodup_keys_set entry key _ hn), fun x => ?_⟩
      simp only
      rw [h2 x, Row.mem_keys_set, List.mem_cons, or_assoc]

theorem xlsxRows_mem (rest : List (List String)) (ri : Nat) (headers : List String)
    (inputs : List Row) (hri : ri ≠ 0) (r : Row) (hr : r ∈ xlsxRows rest ri headers inputs) :
    r ∈ inputs ∨ ∃ cells ∈ rest, xlsxEntry cells headers 0 [] false = (r, true) := by
  induction rest generalizing ri inputs with
  | nil => exact Or.inl (by simpa [xlsxRows] using hr)
  | cons row rest ih =>
    simp only [xlsxRows, hri, if_false] at hr
    split at hr
    · rename_i entry heq
      rcases ih (ri + 1) _ (Nat.succ_ne_zero ri) hr with h | ⟨cells, hc, he⟩
      · rcases List.mem_append.mp h with h | h
        · exact Or.inl h
        · rw [List.mem_singleton] at h
          exact Or.inr ⟨row, List.mem_cons_self _ _, by rw [h, heq]⟩
      · exact Or.inr ⟨cells, List.mem_cons_of_mem _ hc, he⟩
    · rcases ih (ri + 1) _ (Nat.succ_ne_zero ri) hr with h | ⟨cells, hc, he⟩
      · exact Or.inl h
      · exact Or.inr ⟨cells, List.mem_cons_of_mem _ hc, he⟩

theorem readXLSX_row_keys (fs : FileSystem) (file : String) (xl : XlsxFile) (rows : List Row)
    (hopen : fs.openXLSX file = Except.ok xl) (hread : readXLSX fs file = Res.ok rows)
    (r : Row) (hr : r ∈ rows) :
    r.keys.Nodup ∧ ∀ k, k ∈ r.keys ↔ k ∈ xlsxHeader xl := by
  unfold readXLSX at hread
  rw [hopen] at hread
  simp only at hread
  unfold xlsxHeader
  split at hread
  · cases hread
  · rename_i sheet others hs
    rw [hs]
    simp only
    injection hread with hrows
    subst hrows
    cases hrw : sheet.Rows with
    | nil => rw [hrw] at hr; simp [xlsxRows] at hr
    | cons header data =>
      rw [hrw] at hr
      simp only [xlsxRows, if_true, List.nil_append] at hr
      rcases xlsxRows_mem data 1 header [] (by decide) r hr with h | ⟨cells, _, he⟩
      · simp at h
      · have hk := xlsxEntry_keys cells header 0 [] false
        rw [he] at hk
        refine ⟨hk.1 (by simp [Row.keys]), fun k => ?_⟩
        rw [hk.2 k]
        simp [Row.keys]

/-- C3, as amended: every Row that `readXLSX` produces has one key for each
distinct header name and no other key, so that a header column without a cell
in the grid row is never left out; its number of keys is the number of
distinct header names, which is `len(header)` when the header names are
pairwise distinct. -/
theorem readXLSX_key_count (fs : FileSystem) (file : String) (xl : XlsxFile)
    (rows : List Row) (hopen : fs.openXLSX file = Except.ok xl)
    (hread : readXLSX fs file = Res.ok rows) (r : Row) (hr : r ∈ rows) :
    (∀ k, k ∈ r.keys ↔ k ∈ xlsxHeader xl) ∧
    r.len = (xlsxHeader xl).dedup.length ∧
    ((xlsxHeader xl).Nodup → r.len = (xlsxHeader xl).length) := by
  obtain ⟨hnd, hmem⟩ := readXLSX_row_keys fs file xl rows hopen hread r hr
  have hperm : r.keys.Perm (xlsxHeader xl).dedup :=
    (List.perm_ext_iff_of_nodup hnd (List.nodup_dedup _)).mpr
      (fun k => by rw [hmem k, List.mem_dedup])
  have hlen : r.len = (xlsxHeader xl).dedup.length := by
    rw [← hperm.length_eq]
    simp [Row.len, Row.keys]
  exact ⟨hmem, hlen, fun h => by rw [hlen, h.dedup]⟩

/-- Witness of C3 as amended: header `id`, `val` and a data row with the one
cell `7`. -/
theorem readXLSX_key_count_witness :
    readXLSX (xlsxOnly [["id", "val"], ["7"]]) "book.xlsx" = Res.ok [[("id", "7"), ("val", "")]] ∧
    Row.len [("id", "7"), ("val", "")] = (xlsxHeader ⟨[⟨[["id", "val"], ["7"]]⟩]⟩).length :=
  ⟨rfl, (readXLSX_key_count (xlsxOnly [["id", "val"], ["7"]]) "book.xlsx"
    ⟨[⟨[["id", "val"], ["7"]]⟩]⟩ [[("id", "7"), ("val", "")]] rfl rfl
    [("id", "7"), ("val", "")] (List.mem_singleton.mpr rfl)).2.2 (by decide)⟩

/-- C3 as stated fails: under the header `a`, `a` the data row `x`, `y` gives
a Row with one key, while the header has two entries. -/
theorem readXLSX_key_count_counterexample :
    readXLSX (xlsxOnly [["a", "a"], ["x", "y"]]) "book.xlsx" = Res.ok [[("a", "y")]] ∧
    Row.len [("a", "y")] = 1 ∧
    (xlsxHeader ⟨[⟨[["a", "a"], ["x", "y"]]⟩]⟩).length = 2 :=
  ⟨rfl, rfl, rfl⟩

/-- C5, the code at the failing input: under the header `id`, `val` the data
row whose `id` cell holds `1` and whose `val` cell is blank is dropped, and
`readXLSX` returns no row. -/
theorem readXLSX_drops_row_with_blank_last_cell :
    readXLSX (xlsxOnly [["id", "val"], ["1", ""]]) "book.xlsx" = Res.ok [] :=
  rfl

/-! ## Lemmas on `readCSV` -/

theorem zipEntry_keys (h : List String) (rec : List String) (i : Nat) (entry row : Row)
    (hz : zipEntry h rec i entry = some row) :
    ∀ k, k ∈ row.keys ↔ k ∈ entry.keys ∨ k ∈ (h.drop i).take rec.length := by
  induction rec generalizing i entry with
  | nil =>
    simp only [zipEntry, Option.some.injEq] at hz
    simp [hz]
  | cons val rest ih =>
    unfold zipEntry at hz
    cases hk : h[i]? with
    | none => rw [hk] at hz; cases hz
    | some key =>
      rw [hk] at hz
      simp only at hz
      obtain ⟨hi, hget⟩ := List.getElem?_eq_some_iff.mp hk
      intro k
      rw [ih (i + 1) _ hz k, Row.mem_keys_set, List.drop_eq_getElem_cons hi, hget]
      simp only [List.length_cons, List.take_succ_cons, List.mem_cons]
      tauto

theorem zipEntry_inBounds (h : List String) (rec : List String) (i : Nat) (entry : Row)
    (hb : i + rec.length ≤ h.length) : ∃ row, zipEntry h rec i entry = some row := by
  induction rec generalizing i entry with
  | nil => exact ⟨entry, rfl⟩
  | cons val rest ih =>
    simp only [List.length_cons] at hb
    have hi : i < h.length := by omega
    unfold zipEntry
    rw [List.getElem?_eq_getElem hi]
    exact ih (i + 1) _ (by omega)

theorem checkFields_pos (n : Nat) (hn : 0 < n) (rec : List String) :
    checkFields (n : Int) rec =
      if rec.length = n then ((n : Int), ReadResult.record rec)
      else ((n : Int), ReadResult.failure Err.fieldCount) := by
  have hlt : (n : Int) > 0 := by exact_mod_cast hn
  unfold checkFields
  rw [if_pos hlt]
  by_cases hlen : rec.length = n
  · have hc : ¬ ((rec.length : Int) ≠ (n : Int)) := by
      intro hne
      exact hne (by exact_mod_cast hlen)
    rw [if_neg hc, if_pos hlen]
  · have hc : (rec.length : Int) ≠ (n : Int) := by
      intro heq
      exact hlen (by exact_mod_cast heq)
    rw [if_pos hc, if_neg hlen]

theorem readCSVLoop_header (h : List String) (hpos : 0 < h.length) (pending : List RawRecord)
    (inputs rows : List Row)
    (hread : readCSVLoop pending (h.length : Int) (some h) inputs = Res.ok rows) :
    ∃ added, rows = inputs ++ added ∧ List.Forall₂ (csvRowOf h) pending added := by
  induction pending generalizing inputs with
  | nil =>
    simp only [readCSVLoop, Res.ok.injEq] at hread
    exact ⟨[], by simp [hread], List.Forall₂.nil⟩
  | cons raw pending ih =>
    cases raw with
    | malformed err => simp [readCSVLoop, readRecord] at hread
    | fields first more =>
      simp only [readCSVLoop, readRecord, checkFields_pos h.length hpos] at hread
      by_cases hlen : (first :: more).length = h.length
      · rw [if_pos hlen] at hread
        simp only at hread
        cases hz : zipEntry h (first :: more) 0 [] with
        | none => rw [hz] at hread; cases hread
        | some entry =>
          rw [hz] at hread
          obtain ⟨added, h1, h2⟩ := ih (inputs ++ [entry]) hread
          refine ⟨entry :: added, by simp [h1], List.Forall₂.cons ?_ h2⟩
          exact ⟨first, more, rfl, hlen, hz⟩
      · rw [if_neg hlen] at hread
        cases hread

theorem readCSVLoop_header_total (h : List String) (hpos : 0 < h.length)
    (pending : List RawRecord) (inputs : List Row) :
    (∃ rows, readCSVLoop pending (h.length : Int) (some h) inputs = Res.ok rows) ∨
    (∃ err, readCSVLoop pending (h.length : Int) (some h) inputs = Res.error err) := by
  induction pending generalizing inputs with
  | nil => exact Or.inl ⟨inputs, rfl⟩
  | cons raw pending ih =>
    cases raw with
    | malformed err => exact Or.inr ⟨err, by simp [readCSVLoop, readRecord]⟩
    | fields first more =>
      simp only [readCSVLoop, readRecord, checkFields_pos h.length hpos]
      by_cases hlen : (first :: more).length = h.length
      · obtain ⟨entry, hz⟩ := zipEntry_inBounds h (first :: more) 0 [] (by omega)
        rw [if_pos hlen]
        simp only [hz]
        exact ih _
      · rw [if_neg hlen]
        exact Or.inr ⟨Err.fieldCount, rfl⟩

theorem readCSVLoop_first (first : String) (more : List String) (pending : List RawRecord) :
    readCSVLoop (RawRecord.fields first more :: pending) 0 none [] =
      readCSVLoop pending ((first :: more).length : Int) (some (first :: more)) [] := by
  simp [readCSVLoop, readRecord, checkFields]

theorem readCSV_rows (fs : FileSystem) (file : String) (first : String) (more : List String)
    (pending : List RawRecord) (rows : List Row)
    (hopen : fs.openCSV file = Except.ok (RawRecord.fields first more :: pending))
    (hread : readCSV fs file = Res.ok rows) :
    List.Forall₂ (csvRowOf (first :: more)) pending rows := by
  unfold readCSV at hread
  rw [hopen] at hread
  simp only at hread
  rw [readCSVLoop_first] at hread
  obtain ⟨added, h1, h2⟩ := readCSVLoop_header (first :: more) (by simp) pending [] rows hread
  rw [h1, List.nil_append]
  exact h2

theorem forall₂_of_mem_left {α β : Type} (R : α → β → Prop) (l1 : List α) (l2 : List β)
    (h : List.Forall₂ R l1 l2) (a : α) (ha : a ∈ l1) : ∃ b ∈ l2, R a b := by
  induction h with
  | nil => cases ha
  | cons hab _ ih =>
    rcases List.mem_cons.mp ha with h1 | h1
    · exact ⟨_, List.mem_cons_self _ _, h1 ▸ hab⟩
    · obtain ⟨b, hb, hr⟩ := ih h1
      exact ⟨b, List.mem_cons_of_mem _ hb, hr⟩

theorem forall₂_of_mem_right {α β : Type} (R : α → β → Prop) (l1 : List α) (l2 : List β)
    (h : List.Forall₂ R l1 l2) (b : β) (hb : b ∈ l2) : ∃ a ∈ l1, R a b := by
  induction h with
  | nil => cases hb
  | cons hab _ ih =>
    rcases List.mem_cons.mp hb with h1 | h1
    · exact ⟨_, List.mem_cons_self _ _, h1 ▸ hab⟩
    · obtain ⟨a, ha, hr⟩ := ih h1
      exact ⟨a, List.mem_cons_of_mem _ ha, hr⟩

theorem csvRowOf_keys (h : List String) (raw : RawRecord) (row : Row)
    (hrow : csvRowOf h raw row) : ∀ k, k ∈ row.keys ↔ k ∈ h := by
  obtain ⟨first, more, _, hlen, hz⟩ := hrow
  intro k
  rw [zipEntry_keys h (first :: more) 0 [] row hz k, hlen]
  simp [Row.keys]

/-- C4, as amended: after the header `h`, every record that `readCSV` turns
into a Row has exactly `len(h)` fields, the Rows correspond to the records one
to one and in order, and the key set of each Row is `{ h[i] | i < len(rec) }`,
which is then the set of all header names; a record whose field count differs
from the header's, a shorter one included, makes `readCSV` return an error
and no Row. -/
theorem readCSV_row_keys (fs : FileSystem) (file : String) (first : String)
    (more : List String) (pending : List RawRecord)
    (hopen : fs.openCSV file = Except.ok (RawRecord.fields first more :: pending)) :
    (∀ rows, readCSV fs file = Res.ok rows →
      List.Forall₂ (fun raw row => ∃ f m, raw = RawRecord.fields f m ∧
        (f :: m).length = (first :: more).length ∧
        ∀ k, k ∈ Row.keys row ↔ k ∈ (first :: more).take (f :: m).length) pending rows) ∧
    ((∃ f m, RawRecord.fields f m ∈ pending ∧ (f :: m).length ≠ (first :: more).length) →
      ∃ err, readCSV fs file = Res.error err) := by
  constructor
  · intro rows hread
    refine (readCSV_rows fs file first more pending rows hopen hread).imp ?_
    intro raw row hrow
    obtain ⟨f, m, hraw, hlen, hz⟩ := hrow
    refine ⟨f, m, hraw, hlen, fun k => ?_⟩
    rw [zipEntry_keys (first :: more) (f :: m) 0 [] row hz k]
    simp [Row.keys]
  · rintro ⟨f, m, hmem, hne⟩
    have hloop : readCSV fs file =
        readCSVLoop pending ((first :: more).length : Int) (some (first :: more)) [] := by
      unfold readCSV
      rw [hopen]
      exact readCSVLoop_first first more pending
    rcases readCSVLoop_header_total (first :: more) (by simp) pending [] with
      ⟨rows, hok⟩ | ⟨err, herr⟩
    · exfalso
      have hall := readCSV_rows fs file first more pending rows hopen (hloop.trans hok)
      obtain ⟨row, _, f1, m1, heq, hlen, _⟩ := forall₂_of_mem_left _ _ _ hall _ hmem
      injection heq with hf hm
      subst hf hm
      exact hne hlen
    · exact ⟨err, hloop.trans herr⟩

/-- Witness of C4 as amended: under the header `id`, `name` the record
`1`, `Alice` is read and the record `2` alone is an error. -/
theorem readCSV_row_keys_witness :
    (csvOnly [RawRecord.fields "id" ["name"], RawRecord.fields "1" ["Alice"],
        RawRecord.fields "2" []]).openCSV "data.csv"
      = Except.ok (RawRecord.fields "id" ["name"] ::
          [RawRecord.fields "1" ["Alice"], RawRecord.fields "2" []]) ∧
    ∃ err, readCSV (csvOnly [RawRecord.fields "id" ["name"], RawRecord.fields "1" ["Alice"],
        RawRecord.fields "2" []]) "data.csv" = Res.error err :=
  ⟨rfl, (readCSV_row_keys (csvOnly [RawRecord.fields "id" ["name"],
      RawRecord.fields "1" ["Alice"], RawRecord.fields "2" []]) "data.csv" "id" ["name"]
      [RawRecord.fields "1" ["Alice"], RawRecord.fields "2" []] rfl).2
    ⟨"2", [], by simp, by decide⟩⟩

/-- C4 as stated fails: under the header `a`, `b` the shorter record `x`
yields no Row; `readCSV` returns the field-count error. -/
theorem readCSV_short_record_counterexample :
    readCSV (csvOnly [RawRecord.fields "a" ["b"], RawRecord.fields "x" []]) "data.csv"
      = Res.error Err.fieldCount :=
  rfl

/-- C10: in the row sequence `readCSV` returns, and in the one `readXLSX`
returns, every Row has the same key set: the set of the header names in the
first row of the source. -/
theorem rows_share_header_keys (fs : FileSystem) (file : String) (rows : List Row) :
    (∀ pending, fs.openCSV file = Except.ok pending → readCSV fs file = Res.ok rows →
      ∀ r ∈ rows, ∀ k, k ∈ Row.keys r ↔ k ∈ csvHeader pending) ∧
    (∀ xl, fs.openXLSX file = Except.ok xl → readXLSX fs file = Res.ok rows →
      ∀ r ∈ rows, ∀ k, k ∈ Row.keys r ↔ k ∈ xlsxHeader xl) := by
  constructor
  · intro pending hopen hread r hr
    cases pending with
    | nil =>
      unfold readCSV at hread
      rw [hopen] at hread
      simp only [readCSVLoop, Res.ok.injEq] at hread
      rw [← hread] at hr
      cases hr
    | cons raw rest =>
      cases raw with
      | malformed err =>
        unfold readCSV at hread
        rw [hopen] at hread
        simp [readCSVLoop, readRecord] at hread
      | fields first more =>
        have hall := readCSV_rows fs file first more rest rows hopen hread
        obtain ⟨raw, _, hrow⟩ := forall₂_of_mem_right _ _ _ hall r hr
        exact csvRowOf_keys (first :: more) raw r hrow
  · intro xl hopen hread r hr
    exact (readXLSX_row_keys fs file xl rows hopen hread r hr).2

/-- Witness of C10 on the delimited-text table of Scenario A. -/
theorem rows_share_header_keys_witness :
    readCSV (csvOnly [RawRecord.fields "id" ["name"], RawRecord.fields "1" ["Alice"],
        RawRecord.fields "2" ["Bob"]]) "data.csv" = Res.ok aliceBob ∧
    ∀ r ∈ aliceBob, ∀ k, k ∈ Row.keys r ↔ k ∈ ["id", "name"] :=
  ⟨rfl, (rows_share_header_keys (csvOnly [RawRecord.fields "id" ["name"],
      RawRecord.fields "1" ["Alice"], RawRecord.fields "2" ["Bob"]]) "data.csv" aliceBob).1
    [RawRecord.fields "id" ["name"], RawRecord.fields "1" ["Alice"],
      RawRecord.fields "2" ["Bob"]] rfl rfl⟩

/-! ## Lemmas on `Files` -/

theorem filesLoop_cons (fs : FileSystem) (file : String) (rest : List String)
    (inputs : List Row) (tmpl : String) :
    filesLoop fs (file :: rest) inputs tmpl =
      if Ext file = ".csv" then
        match readCSV fs file with
        | Res.ok rows => filesLoop fs rest rows tmpl
        | Res.error err => Res.error err
        | Res.panic => Res.panic
      else if Ext file = ".sql" then
        match readSQL fs file with
        | Except.ok text => filesLoop fs rest inputs text
        | Except.error err => Res.error err
      else if Ext file = ".xlsx" then
        match readXLSX fs file with
        | Res.ok rows => filesLoop fs rest rows tmpl
        | Res.error err => Res.error err
        | Res.panic => Res.panic
      else filesLoop fs rest inputs tmpl := by
  rw [filesLoop]

theorem filesLoop_append (fs : FileSystem) (pre post : List String) (inputs i1 : List Row)
    (tmpl t1 : String) (h : filesLoop fs pre inputs tmpl = Res.ok (i1, t1)) :
    filesLoop fs (pre ++ post) inputs tmpl = filesLoop fs post i1 t1 := by
  induction pre generalizing inputs tmpl with
  | nil =>
    simp only [filesLoop, Res.ok.injEq, Prod.mk.injEq] at h
    simp [h.1, h.2]
  | cons f pre ih =>
    rw [List.cons_append, filesLoop_cons]
    rw [filesLoop_cons] at h
    by_cases hc : Ext f = ".csv"
    · simp only [hc, if_true] at h ⊢
      cases hr : readCSV fs f with
      | ok rows => rw [hr] at h; exact ih _ _ h
      | error err => rw [hr] at h; cases h
      | panic => rw [hr] at h; cases h
    · by_cases hs : Ext f = ".sql"
      · simp only [hc, hs, if_true, if_false] at h ⊢
        cases hr : readSQL fs f with
        | ok text => rw [hr] at h; exact ih _ _ h
        | error err => rw [hr] at h; cases h
      · by_cases hx : Ext f = ".xlsx"
        · simp only [hc, hs, hx, if_true, if_false] at h ⊢
          cases hr : readXLSX fs f with
          | ok rows => rw [hr] at h; exact ih _ _ h
          | error err => rw [hr] at h; cases h
          | panic => rw [hr] at h; cases h
        · simp only [hc, hs, hx, if_false] at h ⊢
          exact ih _ _ h

theorem filesLoop_succeeds (fs : FileSystem) (files : List String) (inputs : List Row)
    (tmpl : String) (h : readsSucceed fs files) :
    ∃ i1 t1, filesLoop fs files inputs tmpl = Res.ok (i1, t1) := by
  induction files generalizing inputs tmpl with
  | nil => exact ⟨inputs, tmpl, rfl⟩
  | cons f files ih =>
    have hrest : readsSucceed fs files := fun g hg => h g (List.mem_cons_of_mem _ hg)
    obtain ⟨hcsv, hsql, hxlsx⟩ := h f (List.mem_cons_self _ _)
    rw [filesLoop_cons]
    by_cases hc : Ext f = ".csv"
    · obtain ⟨rows, hr⟩ := hcsv hc
      simp only [hc, if_true, hr]
      exact ih _ _ hrest
    · by_cases hs : Ext f = ".sql"
      · obtain ⟨text, hr⟩ := hsql hs
        simp only [hc, hs, if_true, if_false, hr]
        exact ih _ _ hrest
      · by_cases hx : Ext f = ".xlsx"
        · obtain ⟨rows, hr⟩ := hxlsx hx
          simp only [hc, hs, hx, if_true, if_false, hr]
          exact ih _ _ hrest
        · simp only [hc, hs, hx, if_false]
          exact ih _ _ hrest

theorem filesLoop_noTable (fs : FileSystem) (files : List String) (inputs i1 : List Row)
    (tmpl t1 : String) (hno : ∀ f ∈ files, notTable f)
    (h : filesLoop fs files inputs tmpl = Res.ok (i1, t1)) : i1 = inputs := by
  induction files generalizing tmpl with
  | nil =>
    simp only [filesLoop, Res.ok.injEq, Prod.mk.injEq] at h
    exact h.1.symm
  | cons f files ih =>
    have hrest : ∀ g ∈ files, notTable g := fun g hg => hno g (List.mem_cons_of_mem _ hg)
    obtain ⟨hc, hx⟩ := hno f (List.mem_cons_self _ _)
    rw [filesLoop_cons] at h
    by_cases hs : Ext f = ".sql"
    · simp only [hc, hs, if_true, if_false] at h
      cases hr : readSQL fs f with
      | ok text => rw [hr] at h; exact ih _ hrest h
      | error err => rw [hr] at h; cases h
    · simp only [hc, hs, hx, if_false] at h
      exact ih _ hrest h

theorem filesLoop_noSql (fs : FileSystem) (files : List String) (inputs i1 : List Row)
    (tmpl t1 : String) (hno : ∀ f ∈ files, Ext f ≠ ".sql")
    (h : filesLoop fs files inputs tmpl = Res.ok (i1, t1)) : t1 = tmpl := by
  induction files generalizing inputs with
  | nil =>
    simp only [filesLoop, Res.ok.injEq, Prod.mk.injEq] at h
    exact h.2.symm
  | cons f files ih =>
    have hrest : ∀ g ∈ files, Ext g ≠ ".sql" := fun g hg => hno g (List.mem_cons_of_mem _ hg)
    have hs := hno f (List.mem_cons_self _ _)
    rw [filesLoop_cons] at h
    by_cases hc : Ext f = ".csv"
    · simp only [hc, if_true] at h
      cases hr : readCSV fs f with
      | ok rows => rw [hr] at h; exact ih _ hrest h
      | error err => rw [hr] at h; cases h
      | panic => rw [hr] at h; cases h
    · by_cases hx : Ext f = ".xlsx"
      · simp only [hc, hs, hx, if_true, if_false] at h
        cases hr : readXLSX fs f with
        | ok rows => rw [hr] at h; exact ih _ hrest h
        | error err => rw [hr] at h; cases h
        | panic => rw [hr] at h; cases h
      · simp only [hc, hs, hx, if_false] at h
        exact ih _ hrest h

theorem filesLoop_table (fs : FileSystem) (f : String) (rest : List String)
    (inputs rows : List Row) (tmpl : String) (h : tableRows fs f rows) :
    filesLoop fs (f :: rest) inputs tmpl = filesLoop fs rest rows tmpl := by
  have hne : ¬ ".xlsx" = ".csv" ∧ ¬ ".xlsx" = ".sql" := by decide
  rw [filesLoop_cons]
  rcases h with ⟨hext, hr⟩ | ⟨hext, hr⟩
  · simp only [hext, if_true, hr]
  · simp only [hext, hne.1, hne.2, if_true, if_false, hr]

theorem filesLoop_sql (fs : FileSystem) (f : String) (rest : List String)
    (inputs : List Row) (tmpl text : String) (hext : Ext f = ".sql")
    (hr : readSQL fs f = Except.ok text) :
    filesLoop fs (f :: rest) inputs tmpl = filesLoop fs rest inputs text := by
  have hne : ¬ ".sql" = ".csv" := by decide
  rw [filesLoop_cons]
  simp only [hext, hne, if_true, if_false, hr]

theorem filesLoop_last_table (fs : FileSystem) (pre post : List String) (f : String)
    (rows inputs : List Row) (tmpl : String) (hreads : readsSucceed fs (pre ++ f :: post))
    (hf : tableRows fs f rows) (hpost : ∀ g ∈ post, notTable g) :
    ∃ text, filesLoop fs (pre ++ f :: post) inputs tmpl = Res.ok (rows, text) := by
  have hpre : readsSucceed fs pre := fun g hg => hreads g (List.mem_append_left _ hg)
  have hpst : readsSucceed fs post :=
    fun g hg => hreads g (List.mem_append_right _ (List.mem_cons_of_mem _ hg))
  obtain ⟨i1, t1, h1⟩ := filesLoop_succeeds fs pre inputs tmpl hpre
  obtain ⟨i2, t2, h2⟩ := filesLoop_succeeds fs post rows t1 hpst
  have hi := filesLoop_noTable fs post rows i2 t1 t2 hpost h2
  refine ⟨t2, ?_⟩
  rw [filesLoop_append fs pre (f :: post) inputs i1 tmpl t1 h1,
    filesLoop_table fs f post i1 rows t1 hf, h2, hi]

theorem filesLoop_last_sql (fs : FileSystem) (pre post : List String) (f : String)
    (inputs : List Row) (tmpl text : String) (hreads : readsSucceed fs (pre ++ f :: post))
    (hext : Ext f = ".sql") (hf : readSQL fs f = Except.ok text)
    (hpost : ∀ g ∈ post, Ext g ≠ ".sql") :
    ∃ rows, filesLoop fs (pre ++ f :: post) inputs tmpl = Res.ok (rows, text) := by
  have hpre : readsSucceed fs pre := fun g hg => hreads g (List.mem_append_left _ hg)
  have hpst : readsSucceed fs post :=
    fun g hg => hreads g (List.mem_append_right _ (List.mem_cons_of_mem _ hg))
  obtain ⟨i1, t1, h1⟩ := filesLoop_succeeds fs pre inputs tmpl hpre
  obtain ⟨i2, t2, h2⟩ := filesLoop_succeeds fs post i1 text hpst
  have ht := filesLoop_noSql fs post i1 i2 text t2 hpost h2
  refine ⟨i2, ?_⟩
  rw [filesLoop_append fs pre (f :: post) inputs i1 tmpl t1 h1,
    filesLoop_sql fs f post i1 t1 text hext hf, h2, ht]

theorem filesLoop_noRows (fs : FileSystem) (files : List String) (i1 : List Row)
    (tmpl t1 : String)
    (hempty : ∀ f ∈ files, (Ext f = ".csv" → readCSV fs f = Res.ok []) ∧
      (Ext f = ".xlsx" → readXLSX fs f = Res.ok []))
    (h : filesLoop fs files [] tmpl = Res.ok (i1, t1)) : i1 = [] := by
  induction files generalizing tmpl with
  | nil =>
    simp only [filesLoop, Res.ok.injEq, Prod.mk.injEq] at h
    exact h.1.symm
  | cons f files ih =>
    have hrest : ∀ g ∈ files, (Ext g = ".csv" → readCSV fs g = Res.ok []) ∧
        (Ext g = ".xlsx" → readXLSX fs g = Res.ok []) :=
      fun g hg => hempty g (List.mem_cons_of_mem _ hg)
    obtain ⟨hcsv, hxlsx⟩ := hempty f (List.mem_cons_self _ _)
    rw [filesLoop_cons] at h
    by_cases hc : Ext f = ".csv"
    · simp only [hc, if_true] at h
      rw [hcsv hc] at h
      exact ih _ hrest h
    · by_cases hs : Ext f = ".sql"
      · simp only [hc, hs, if_true, if_false] at h
        cases hr : readSQL fs f with
        | ok text => rw [hr] at h; exact ih _ hrest h
        | error err => rw [hr] at h; cases h
      · by_cases hx : Ext f = ".xlsx"
        · simp only [hc, hs, hx, if_true, if_false] at h
          rw [hxlsx hx] at h
          exact ih _ hrest h
        · simp only [hc, hs, hx, if_false] at h
          exact ih _ hrest h

theorem emptyTemplate_output (noValue : String) (rows : List Row) :
    expectedOutput (compile noValue []) rows = String.mk (List.replicate rows.length '\n') := by
  induction rows with
  | nil => rfl
  | cons r rows ih =>
    unfold expectedOutput at ih ⊢
    simp only [List.map_cons, concatAll, ih, List.length_cons, List.replicate_succ]
    rfl

/-! ## The source selector: `Files` -/

/-- C6: when every read succeeds, the rows that `Files` hands to `New` are
those read from the last `.csv` file of the list (there being no `.xlsx`
file), whatever earlier `.csv` files hold; and the template text it hands to
`New` is that of the last `.sql` file of the list. -/
theorem Files_last_file_wins (E : Engine) (fs : FileSystem) (files : List String)
    (hreads : readsSucceed fs files) :
    (∀ pre f post rows, files = pre ++ f :: post → Ext f = ".csv" →
      readCSV fs f = Res.ok rows → (∀ g ∈ post, Ext g ≠ ".csv") →
      (∀ g ∈ files, Ext g ≠ ".xlsx") →
      ∃ text, filesLoop fs files [] "" = Res.ok (rows, text) ∧
        Files E fs files = Res.ofExcept (New E rows text)) ∧
    (∀ pre f post text, files = pre ++ f :: post → Ext f = ".sql" →
      readSQL fs f = Except.ok text → (∀ g ∈ post, Ext g ≠ ".sql") →
      ∃ rows, filesLoop fs files [] "" = Res.ok (rows, text) ∧
        Files E fs files = Res.ofExcept (New E rows text)) := by
  constructor
  · intro pre f post rows hfiles hext hr hpost hx
    subst hfiles
    obtain ⟨text, hloop⟩ := filesLoop_last_table fs pre post f rows [] "" hreads
      (Or.inl ⟨hext, hr⟩)
      (fun g hg => ⟨hpost g hg,
        hx g (List.mem_append_right _ (List.mem_cons_of_mem _ hg))⟩)
    exact ⟨text, hloop, by unfold Files; rw [hloop]⟩
  · intro pre f post text hfiles hext hr hpost
    subst hfiles
    obtain ⟨rows, hloop⟩ := filesLoop_last_sql fs pre post f [] "" text hreads hext hr hpost
    exact ⟨rows, hloop, by unfold Files; rw [hloop]⟩

/-- C7, as amended: when every read succeeds, the template text parses, and
no table file yields a data row, `Files` returns the error "no input found"
and no Parser. -/
theorem Files_no_rows (E : Engine) (fs : FileSystem) (files : List String)
    (hreads : readsSucceed fs files)
    (hparse : ∀ rows text, filesLoop fs files [] "" = Res.ok (rows, text) →
      ∃ t, E.Parse text = Except.ok t)
    (hempty : ∀ f ∈ files, (Ext f = ".csv" → readCSV fs f = Res.ok []) ∧
      (Ext f = ".xlsx" → readXLSX fs f = Res.ok [])) :
    Files E fs files = Res.error Err.noInputFound := by
  obtain ⟨i1, t1, hloop⟩ := filesLoop_succeeds fs files [] "" hreads
  obtain ⟨t, ht⟩ := hparse i1 t1 hloop
  have hi := filesLoop_noRows fs files i1 "" t1 hempty hloop
  subst hi
  unfold Files
  rw [hloop]
  simp [New, ht, Res.ofExcept]

/-- C8: when the list holds no `.sql` file, every read succeeds and the last
table file yields `n ≥ 1` rows, `Files` returns a Parser on those rows, and
its `Write` returns `nil` and leaves in an empty buffer `n` newlines and
nothing else. -/
theorem Files_without_template (noValue : String) (fs : FileSystem) (pre post : List String)
    (f : String) (rows : List Row) (hreads : readsSucceed fs (pre ++ f :: post))
    (hnosql : ∀ g ∈ pre ++ f :: post, Ext g ≠ ".sql") (hf : tableRows fs f rows)
    (hpost : ∀ g ∈ post, notTable g) (hn : 1 ≤ rows.length) :
    ∃ p, Files (htmlTemplate noValue) fs (pre ++ f :: post) = Res.ok p ∧ p.inputs = rows ∧
      p.Write bytesBuffer emptyBuffer =
        (⟨(), String.mk (List.replicate rows.length '\n')⟩, none) := by
  obtain ⟨text, hloop⟩ := filesLoop_last_table fs pre post f rows [] "" hreads hf hpost
  have htext := filesLoop_noSql fs _ [] rows "" text hnosql hloop
  subst htext
  have hlen : ¬ rows.length = 0 := by omega
  have hparse : (htmlTemplate noValue).Parse "" = Except.ok (compile noValue []) := rfl
  refine ⟨⟨rows, compile noValue []⟩, ?_, rfl, ?_⟩
  · unfold Files
    rw [hloop]
    simp [New, hparse, hlen, Res.ofExcept]
  · unfold Parser.Write
    rw [writeRows_bytesBuffer (compile noValue []) rows emptyBuffer (fun _ _ => rfl),
      emptyTemplate_output]
    simp [emptyBuffer]

/-- Witness of C6: of two `.csv` files the later one supplies the rows. -/
theorem Files_last_file_wins_witness :
    readCSV twoTables "dir/a.csv" = Res.ok [[("id", "1")]] ∧
    ∃ text, filesLoop twoTables ["dir/a.csv", "dir/t.sql", "dir/b.csv"] [] ""
        = Res.ok ([[("id", "2")], [("id", "3")]], text) ∧
      Files (htmlTemplate "") twoTables ["dir/a.csv", "dir/t.sql", "dir/b.csv"]
        = Res.ofExcept (New (htmlTemplate "") [[("id", "2")], [("id", "3")]] text) :=
  ⟨rfl, (Files_last_file_wins (htmlTemplate "") twoTables
    ["dir/a.csv", "dir/t.sql", "dir/b.csv"]
    (by
      intro f hf
      simp only [List.mem_cons, List.mem_singleton, List.not_mem_nil, or_false] at hf
      rcases hf with h | h | h <;> subst h
      · exact ⟨fun _ => ⟨_, rfl⟩, fun _ => ⟨_, rfl⟩, fun h => absurd h (by decide)⟩
      · exact ⟨fun _ => ⟨_, rfl⟩, fun _ => ⟨_, rfl⟩, fun h => absurd h (by decide)⟩
      · exact ⟨fun _ => ⟨_, rfl⟩, fun _ => ⟨_, rfl⟩, fun h => absurd h (by decide)⟩)).1
    ["dir/a.csv", "dir/t.sql"] "dir/b.csv" [] [[("id", "2")], [("id", "3")]] rfl (by decide) rfl
    (by intro g hg; cases hg)
    (by
      intro g hg
      simp only [List.mem_cons, List.mem_singleton, List.not_mem_nil, or_false] at hg
      rcases hg with h | h | h <;> subst h <;> decide)⟩

/-- Witness of C7 as amended: a table with its header line only and no
template file. -/
theorem Files_no_rows_witness :
    Files (htmlTemplate "") (csvOnly [RawRecord.fields "id" ["name"]]) ["dir/data.csv"]
      = Res.error Err.noInputFound :=
  Files_no_rows (htmlTemplate "") (csvOnly [RawRecord.fields "id" ["name"]]) ["dir/data.csv"]
    (by
      intro f hf
      rw [List.mem_singleton] at hf
      subst hf
      exact ⟨fun _ => ⟨_, rfl⟩, fun h => absurd h (by decide), fun h => absurd h (by decide)⟩)
    (by
      intro rows text h
      have ht : text = "" := by
        have h2 : Res.ok (([] : List Row), "") = Res.ok (rows, text) := h
        injection h2 with h3
        injection h3 with _ h4
        exact h4.symm
      subst ht
      exact ⟨_, rfl⟩)
    (by
      intro f hf
      rw [List.mem_singleton] at hf
      subst hf
      exact ⟨fun _ => rfl, fun h => absurd h (by decide)⟩)

/-- C7 as stated fails: every read succeeds and the one table holds its
header line only, yet `Files` returns the parse error of the template, not
"no input found". -/
theorem Files_no_rows_counterexample :
    readCSV brokenTemplate "dir/data.csv" = Res.ok [] ∧
    readSQL brokenTemplate "dir/q.sql" = Except.ok "\x7b\x7b" ∧
    Res.err? (Files (htmlTemplate "") brokenTemplate ["dir/data.csv", "dir/q.sql"])
      = some (Err.templateParse "unclosed action") :=
  ⟨rfl, rfl, rfl⟩

/-- Witness of C8: two tables and no template; the later table has two
rows. -/
theorem Files_without_template_witness :
    ∃ p, Files (htmlTemplate "") twoTables (["dir/a.csv"] ++ "dir/b.csv" :: []) = Res.ok p ∧
      p.inputs = [[("id", "2")], [("id", "3")]] ∧
      p.Write bytesBuffer emptyBuffer = (⟨(), "\n\n"⟩, none) :=
  Files_without_template "" twoTables ["dir/a.csv"] [] "dir/b.csv" [[("id", "2")], [("id", "3")]]
    (by
      intro f hf
      simp only [List.cons_append, List.nil_append, List.mem_cons, List.mem_singleton,
        List.not_mem_nil, or_false] at hf
      rcases hf with h | h <;> subst h
      · exact ⟨fun _ => ⟨_, rfl⟩, fun _ => ⟨_, rfl⟩, fun h => absurd h (by decide)⟩
      · exact ⟨fun _ => ⟨_, rfl⟩, fun _ => ⟨_, rfl⟩, fun h => absurd h (by decide)⟩)
    (by
      intro g hg
      simp only [List.cons_append, List.nil_append, List.mem_cons, List.mem_singleton,
        List.not_mem_nil, or_false] at hg
      rcases hg with h | h <;> subst h <;> decide)
    (Or.inl ⟨by decide, rfl⟩) (by intro g hg; cases hg) (by decide)

/-! ## The row filter and the cell values of `readXLSX` -/

theorem xlsxRows_eq_filterMap (rest : List (List String)) (ri : Nat) (headers : List String)
    (inputs : List Row) (hri : ri ≠ 0) :
    xlsxRows rest ri headers inputs = inputs ++ rest.filterMap (xlsxRowOf headers) := by
  induction rest generalizing ri inputs with
  | nil => simp [xlsxRows]
  | cons row rest ih =>
    have hrow : xlsxRowOf headers row =
        match xlsxEntry row headers 0 [] false with
        | (entry, true) => some entry
        | (_, false) => none := rfl
    simp only [xlsxRows, hri, if_false, List.filterMap_cons, hrow]
    rcases xlsxEntry row headers 0 [] false with ⟨entry, b⟩
    cases b <;> simp [ih (ri + 1) _ (Nat.succ_ne_zero ri)]

theorem readXLSX_eq_filterMap (fs : FileSystem) (file : String) (xl : XlsxFile)
    (sheet : Sheet) (others : List Sheet) (header : List String) (data : List (List String))
    (hopen : fs.openXLSX file = Except.ok xl) (hsheets : xl.Sheets = sheet :: others)
    (hrows : sheet.Rows = header :: data) :
    readXLSX fs file = Res.ok (data.filterMap (xlsxRowOf header)) := by
  unfold readXLSX
  rw [hopen]
  simp only [hsheets, hrows, xlsxRows, if_true, List.nil_append]
  rw [xlsxRows_eq_filterMap data 1 header [] (by decide), List.nil_append]

theorem xlsxEntry_hasVal (cells : List String) (keys : List String) (i : Nat) (entry : Row)
    (hasVal : Bool) :
    (xlsxEntry cells keys i entry hasVal).2 =
      if i < cells.length ∧ keys ≠ [] then
        decide ((cells.getD (min (i + keys.length) cells.length - 1) "").length > 0)
      else hasVal := by
  induction keys generalizing i entry hasVal with
  | nil => simp [xlsxEntry]
  | cons key keys ih =>
    unfold xlsxEntry
    by_cases hi : i ≥ cells.length
    · rw [if_pos hi, ih]
      have h1 : ¬ (i + 1 < cells.length ∧ keys ≠ []) := fun h => by omega
      have h2 : ¬ (i < cells.length ∧ key :: keys ≠ []) := fun h => by omega
      rw [if_neg h1, if_neg h2]
    · rw [if_neg hi]
      simp only
      rw [ih]
      have h2 : i < cells.length ∧ key :: keys ≠ [] := ⟨by omega, by simp⟩
      rw [if_pos h2]
      by_cases h1 : i + 1 < cells.length ∧ keys ≠ []
      · rw [if_pos h1]
        have hidx : i + 1 + keys.length = i + (key :: keys).length := by
          simp only [List.length_cons]; omega
        rw [hidx]
      · rw [if_neg h1]
        have hidx : min (i + (key :: keys).length) cells.length - 1 = i := by
          simp only [List.length_cons]
          by_cases hk : keys = []
          · subst hk
            simp only [List.length_nil]
            omega
          · have : ¬ i + 1 < cells.length := fun h => h1 ⟨h, hk⟩
            omega
        rw [hidx]

theorem xlsxRowOf_isSome_iff (headers cells : List String) :
    (∃ entry, xlsxRowOf headers cells = some entry) ↔
      ∃ v, lastExamined headers cells = some v ∧ v.length > 0 := by
  have hv := xlsxEntry_hasVal cells headers 0 [] false
  have hkept : (∃ entry, xlsxRowOf headers cells = some entry) ↔
      (xlsxEntry cells headers 0 [] false).2 = true := by
    unfold xlsxRowOf
    split
    · rename_i entry heq
      rw [heq]
      simp
    · rename_i heq
      rw [heq]
      simp
  rw [hkept, hv]
  unfold lastExamined
  simp only [Nat.zero_add]
  by_cases hc : 0 < cells.length ∧ headers ≠ []
  · have hpos : 0 < headers.length := List.length_pos.mpr hc.2
    have hmin : ¬ min headers.length cells.length = 0 := by omega
    have hlt : min headers.length cells.length - 1 < cells.length := by omega
    rw [if_pos hc, if_neg hmin, List.getElem?_eq_getElem hlt]
    simp only [List.getD_eq_getElem?_getD, List.getElem?_eq_getElem hlt, Option.getD_some,
      decide_eq_true_eq, Option.some.injEq, exists_eq_left']
  · have hmin : min headers.length cells.length = 0 := by
      by_cases h0 : 0 < cells.length
      · have : headers = [] := by
          by_contra hne
          exact hc ⟨h0, hne⟩
        subst this
        simp
      · omega
    rw [if_neg hc, if_pos hmin]
    simp

theorem xlsxRowOf_eq_none_iff (headers cells : List String) :
    xlsxRowOf headers cells = none ↔ ¬ ∃ entry, xlsxRowOf headers cells = some entry := by
  cases xlsxRowOf headers cells <;> simp

theorem lastExamined_of_last_column (headers cells : List String) (v : String)
    (hne : headers ≠ []) (hcell : cells[headers.length - 1]? = some v) :
    lastExamined headers cells = some v := by
  have hpos : 0 < headers.length := List.length_pos.mpr hne
  obtain ⟨hlt, _⟩ := List.getElem?_eq_some_iff.mp hcell
  have hmin : min headers.length cells.length = headers.length := by omega
  unfold lastExamined
  rw [hmin, if_neg (by omega), hcell]

theorem Row.get?_set (m : Row) (k v x : String) :
    (m.set k v).get? x = if k = x then some v else m.get? x := by
  induction m with
  | nil => simp [Row.set, Row.get?]
  | cons e rest ih =>
    obtain ⟨k0, v0⟩ := e
    by_cases h : k0 = k
    · subst h
      simp only [Row.set, if_true, Row.get?]
      split <;> rfl
    · simp only [Row.set, h, if_false, Row.get?, ih]
      by_cases hx : k0 = x
      · have hkx : ¬ k = x := fun h2 => h (hx.trans h2.symm)
        simp [hx, hkx]
      · simp [hx]

theorem xlsxEntry_get_other (cells : List String) (keys : List String) (i : Nat)
    (entry : Row) (hasVal : Bool) (k : String) (hk : k ∉ keys) :
    (xlsxEntry cells keys i entry hasVal).1.get? k = entry.get? k := by
  induction keys generalizing i entry hasVal with
  | nil => rfl
  | cons key keys ih =>
    have hne : ¬ key = k := fun h => hk (h ▸ List.mem_cons_self _ _)
    have hrest : k ∉ keys := fun h => hk (List.mem_cons_of_mem _ h)
    unfold xlsxEntry
    split
    · rw [ih _ _ _ hrest, Row.get?_set, if_neg hne]
    · simp only
      rw [ih _ _ _ hrest, Row.get?_set, if_neg hne]

theorem xlsxEntry_get (cells : List String) (keys : List String) (i : Nat) (entry : Row)
    (hasVal : Bool) (hnd : keys.Nodup) (j : Nat) (hj : j < keys.length) :
    (xlsxEntry cells keys i entry hasVal).1.get? keys[j] = some (cellValue cells (i + j)) := by
  induction keys generalizing i entry hasVal j with
  | nil => simp at hj
  | cons key keys ih =>
    obtain ⟨hnotin, hnd2⟩ := List.nodup_cons.mp hnd
    cases j with
    | zero =>
      simp only [List.getElem_cons_zero, Nat.add_zero]
      unfold xlsxEntry cellValue
      split
      · rw [xlsxEntry_get_other _ _ _ _ _ _ hnotin, Row.get?_set, if_pos rfl]
      · simp only
        rw [xlsxEntry_get_other _ _ _ _ _ _ hnotin, Row.get?_set, if_pos rfl]
    | succ j =>
      simp only [List.getElem_cons_succ]
      have hj2 : j < keys.length := by simpa using hj
      have hidx : i + (j + 1) = i + 1 + j := by omega
      rw [hidx]
      unfold xlsxEntry
      split
      · exact ih _ _ _ hnd2 j hj2
      · exact ih _ _ _ hnd2 j hj2

theorem xlsxRowOf_entry (headers cells : List String) (entry : Row)
    (h : xlsxRowOf headers cells = some entry) :
    entry = (xlsxEntry cells headers 0 [] false).1 := by
  unfold xlsxRowOf at h
  split at h
  · rename_i e heq
    rw [heq]
    injection h with h1
    exact h1.symm
  · cases h

/-- C11, as amended: `readXLSX` returns, in grid order, the Rows of the data
rows it keeps, and it keeps a data row if and only if the cell examined last
(the one at the highest header column index at which the grid row has a
cell) exists and has non-empty text as it stands, before trimming; no earlier
cell has a say. -/
theorem readXLSX_keeps_iff_last_cell (fs : FileSystem) (file : String) (xl : XlsxFile)
    (sheet : Sheet) (others : List Sheet) (header : List String) (data : List (List String))
    (hopen : fs.openXLSX file = Except.ok xl) (hsheets : xl.Sheets = sheet :: others)
    (hrows : sheet.Rows = header :: data) :
    readXLSX fs file = Res.ok (data.filterMap (xlsxRowOf header)) ∧
    ∀ cells, (∃ entry, xlsxRowOf header cells = some entry) ↔
      ∃ v, lastExamined header cells = some v ∧ v.length > 0 :=
  ⟨readXLSX_eq_filterMap fs file xl sheet others header data hopen hsheets hrows,
    fun cells => xlsxRowOf_isSome_iff header cells⟩

/-- Witness of C11 as amended: of the data rows `1`, blank and blank, `x` only
the second is kept. -/
theorem readXLSX_keeps_iff_last_cell_witness :
    readXLSX (xlsxOnly [["id", "val"], ["1", ""], ["", "x"]]) "book.xlsx"
      = Res.ok [[("id", ""), ("val", "x")]] :=
  (readXLSX_keeps_iff_last_cell (xlsxOnly [["id", "val"], ["1", ""], ["", "x"]]) "book.xlsx"
    ⟨[⟨[["id", "val"], ["1", ""], ["", "x"]]⟩]⟩ ⟨[["id", "val"], ["1", ""], ["", "x"]]⟩ []
    ["id", "val"] [["1", ""], ["", "x"]] rfl rfl rfl).1.trans rfl

/-- C11 as stated fails: a data row whose only cell holds one blank is kept,
although the text of that cell is empty after trimming. -/
theorem readXLSX_keeps_blank_cell_counterexample :
    readXLSX (xlsxOnly [["id"], [" "]]) "book.xlsx" = Res.ok [[("id", "")]] ∧
    lastExamined ["id"] [" "] = some " " ∧
    TrimSpace " " = "" :=
  ⟨rfl, rfl, rfl⟩

/-- C12, as amended: a data row that has a cell under the last header column
with empty text is dropped, whatever its earlier cells hold; a data row whose
cell under the last header column has non-empty text is kept. -/
theorem readXLSX_last_column_decides (fs : FileSystem) (file : String) (xl : XlsxFile)
    (sheet : Sheet) (others : List Sheet) (header : List String) (data : List (List String))
    (hopen : fs.openXLSX file = Except.ok xl) (hsheets : xl.Sheets = sheet :: others)
    (hrows : sheet.Rows = header :: data) (hne : header ≠ []) :
    readXLSX fs file = Res.ok (data.filterMap (xlsxRowOf header)) ∧
    (∀ cells, cells[header.length - 1]? = some "" → xlsxRowOf header cells = none) ∧
    (∀ cells v, cells[header.length - 1]? = some v → v.length > 0 →
      ∃ entry, xlsxRowOf header cells = some entry) := by
  refine ⟨readXLSX_eq_filterMap fs file xl sheet others header data hopen hsheets hrows,
    fun cells hcell => ?_, fun cells v hcell hv => ?_⟩
  · rw [xlsxRowOf_eq_none_iff, xlsxRowOf_isSome_iff,
      lastExamined_of_last_column header cells "" hne hcell]
    rintro ⟨v, hv, hlen⟩
    injection hv with hv
    subst hv
    exact absurd hlen (by decide)
  · rw [xlsxRowOf_isSome_iff, lastExamined_of_last_column header cells v hne hcell]
    exact ⟨v, rfl, hv⟩

/-- Witness of C12 as amended: the data row `1`, blank is dropped and the
data row blank, `x` is kept. -/
theorem readXLSX_last_column_decides_witness :
    xlsxRowOf ["id", "val"] ["1", ""] = none ∧
    ∃ entry, xlsxRowOf ["id", "val"] ["", "x"] = some entry :=
  ⟨(readXLSX_last_column_decides (xlsxOnly [["id", "val"], ["1", ""], ["", "x"]]) "book.xlsx"
      ⟨[⟨[["id", "val"], ["1", ""], ["", "x"]]⟩]⟩ ⟨[["id", "val"], ["1", ""], ["", "x"]]⟩ []
      ["id", "val"] [["1", ""], ["", "x"]] rfl rfl rfl (by decide)).2.1 ["1", ""] rfl,
    (readXLSX_last_column_decides (xlsxOnly [["id", "val"], ["1", ""], ["", "x"]]) "book.xlsx"
      ⟨[⟨[["id", "val"], ["1", ""], ["", "x"]]⟩]⟩ ⟨[["id", "val"], ["1", ""], ["", "x"]]⟩ []
      ["id", "val"] [["1", ""], ["", "x"]] rfl rfl rfl (by decide)).2.2 ["", "x"] "x" rfl
      (by decide)⟩

/-- C12 as stated fails: under the header `id`, `val` the data row with the
one cell `1` has an empty value under the last header column and a populated
earlier column, and it is kept. -/
theorem readXLSX_short_row_kept_counterexample :
    readXLSX (xlsxOnly [["id", "val"], ["1"]]) "book.xlsx"
      = Res.ok [[("id", "1"), ("val", "")]] ∧
    Row.get? [("id", "1"), ("val", "")] "val" = some "" ∧
    Row.get? [("id", "1"), ("val", "")] "id" = some "1" :=
  ⟨rfl, rfl, rfl⟩

/-- C13: with pairwise distinct header names, taken as they stand from row 0,
every Row that `readXLSX` keeps maps `header[i]`, for each header column index
`i`, to the empty string when the grid row has no cell at index `i` and to
the trimmed text of cell `i` otherwise. -/
theorem readXLSX_cell_values (fs : FileSystem) (file : String) (xl : XlsxFile)
    (sheet : Sheet) (others : List Sheet) (header : List String) (data : List (List String))
    (hopen : fs.openXLSX file = Except.ok xl) (hsheets : xl.Sheets = sheet :: others)
    (hrows : sheet.Rows = header :: data) (hnodup : header.Nodup) :
    xlsxHeader xl = header ∧
    readXLSX fs file = Res.ok (data.filterMap (xlsxRowOf header)) ∧
    ∀ cells entry, xlsxRowOf header cells = some entry →
      ∀ i (hi : i < header.length),
        Row.get? entry (header.get ⟨i, hi⟩) =
          some (if i ≥ cells.length then "" else TrimSpace (cells.getD i "")) := by
  refine ⟨by simp [xlsxHeader, hsheets, hrows],
    readXLSX_eq_filterMap fs file xl sheet others header data hopen hsheets hrows,
    fun cells entry hentry i hi => ?_⟩
  rw [xlsxRowOf_entry header cells entry hentry]
  have h := xlsxEntry_get cells header 0 [] false hnodup i hi
  rw [Nat.zero_add] at h
  exact h

/-- Witness of C13: header `id`, `val`, `note` and a data row with the two
cells ` 7 ` and `x`. -/
theorem readXLSX_cell_values_witness :
    readXLSX (xlsxOnly [["id", "val", "note"], [" 7 ", "x"]]) "book.xlsx"
      = Res.ok [[("id", "7"), ("val", "x"), ("note", "")]] :=
  (readXLSX_cell_values (xlsxOnly [["id", "val", "note"], [" 7 ", "x"]]) "book.xlsx"
    ⟨[⟨[["id", "val", "note"], [" 7 ", "x"]]⟩]⟩ ⟨[["id", "val", "note"], [" 7 ", "x"]]⟩ []
    ["id", "val", "note"] [[" 7 ", "x"]] rfl rfl rfl (by decide)).2.1.trans rfl

/-! ## Order, duplicate names and bounds in `readCSV` -/

theorem readCSVLoop_header_ok (h : List String) (hpos : 0 < h.length)
    (pending : List RawRecord) (inputs : List Row)
    (hgood : ∀ raw ∈ pending, ∃ f m, raw = RawRecord.fields f m ∧
      (f :: m).length = h.length) :
    ∃ rows, readCSVLoop pending (h.length : Int) (some h) inputs = Res.ok rows := by
  induction pending generalizing inputs with
  | nil => exact ⟨inputs, rfl⟩
  | cons raw pending ih =>
    obtain ⟨f, m, hraw, hlen⟩ := hgood raw (List.mem_cons_self _ _)
    subst hraw
    obtain ⟨entry, hz⟩ := zipEntry_inBounds h (f :: m) 0 [] (by omega)
    simp only [readCSVLoop, readRecord, checkFields_pos h.length hpos]
    rw [if_pos hlen]
    simp only [hz]
    exact ih _ (fun raw hr => hgood raw (List.mem_cons_of_mem _ hr))

theorem readCSVLoop_header_ragged (h : List String) (hpos : 0 < h.length)
    (good rest : List RawRecord) (bf : String) (bm : List String) (inputs : List Row)
    (hgood : ∀ raw ∈ good, ∃ f m, raw = RawRecord.fields f m ∧
      (f :: m).length = h.length)
    (hbad : (bf :: bm).length ≠ h.length) :
    readCSVLoop (good ++ RawRecord.fields bf bm :: rest) (h.length : Int) (some h) inputs
      = Res.error Err.fieldCount := by
  induction good generalizing inputs with
  | nil =>
    simp only [List.nil_append, readCSVLoop, readRecord, checkFields_pos h.length hpos]
    rw [if_neg hbad]
  | cons raw good ih =>
    obtain ⟨f, m, hraw, hlen⟩ := hgood raw (List.mem_cons_self _ _)
    subst hraw
    obtain ⟨entry, hz⟩ := zipEntry_inBounds h (f :: m) 0 [] (by omega)
    simp only [List.cons_append, readCSVLoop, readRecord, checkFields_pos h.length hpos]
    rw [if_pos hlen]
    simp only [hz]
    exact ih _ (fun raw hr => hgood raw (List.mem_cons_of_mem _ hr))

theorem readCSV_first (fs : FileSystem) (file : String) (first : String) (more : List String)
    (pending : List RawRecord)
    (hopen : fs.openCSV file = Except.ok (RawRecord.fields first more :: pending)) :
    readCSV fs file =
      readCSVLoop pending ((first :: more).length : Int) (some (first :: more)) [] := by
  unfold readCSV
  rw [hopen]
  exact readCSVLoop_first first more pending

theorem readCSV_total (fs : FileSystem) (file : String) :
    (∃ rows, readCSV fs file = Res.ok rows) ∨ (∃ err, readCSV fs file = Res.error err) := by
  cases hopen : fs.openCSV file with
  | error err => exact Or.inr ⟨err, by unfold readCSV; rw [hopen]⟩
  | ok pending =>
    cases pending with
    | nil => exact Or.inl ⟨[], by unfold readCSV; rw [hopen]; rfl⟩
    | cons raw rest =>
      cases raw with
      | malformed err =>
        exact Or.inr ⟨err, by unfold readCSV; rw [hopen]; simp [readCSVLoop, readRecord]⟩
      | fields first more =>
        rw [readCSV_first fs file first more rest hopen]
        exact readCSVLoop_header_total (first :: more) (by simp) rest []

theorem zipEntry_get_other (h : List String) (rec : List String) (i : Nat) (entry row : Row)
    (k : String) (hz : zipEntry h rec i entry = some row)
    (hk : ∀ j, j < rec.length → h[i + j]? ≠ some k) :
    row.get? k = entry.get? k := by
  induction rec generalizing i entry with
  | nil =>
    simp only [zipEntry, Option.some.injEq] at hz
    rw [hz]
  | cons val rest ih =>
    unfold zipEntry at hz
    cases hkey : h[i]? with
    | none => rw [hkey] at hz; cases hz
    | some key =>
      rw [hkey] at hz
      simp only at hz
      have hne : ¬ key = k := by
        intro heq
        have h0 := hk 0 (by simp)
        rw [Nat.add_zero, hkey, heq] at h0
        exact h0 rfl
      rw [ih (i + 1) _ hz (fun j hj => by
        have h1 := hk (j + 1) (by simp only [List.length_cons]; omega)
        have hidx : i + (j + 1) = i + 1 + j := by omega
        rw [hidx] at h1
        exact h1), Row.get?_set, if_neg hne]

theorem zipEntry_get_last (h : List String) (rec : List String) (i : Nat) (entry row : Row)
    (k : String) (hz : zipEntry h rec i entry = some row) (j : Nat) (hj : j < rec.length)
    (hat : h[i + j]? = some k)
    (hlast : ∀ j2, j < j2 → j2 < rec.length → h[i + j2]? ≠ some k) :
    row.get? k = rec[j]? := by
  induction rec generalizing i entry j with
  | nil => simp at hj
  | cons val rest ih =>
    unfold zipEntry at hz
    cases hkey : h[i]? with
    | none => rw [hkey] at hz; cases hz
    | some key =>
      rw [hkey] at hz
      simp only at hz
      cases j with
      | zero =>
        rw [Nat.add_zero, hkey] at hat
        injection hat with hat
        subst hat
        rw [zipEntry_get_other h rest (i + 1) _ row key hz (fun j2 hj2 => by
          have h1 := hlast (j2 + 1) (by omega) (by simp only [List.length_cons]; omega)
          have hidx : i + (j2 + 1) = i + 1 + j2 := by omega
          rw [hidx] at h1
          exact h1), Row.get?_set, if_pos rfl]
        simp
      | succ j =>
        have hidx : i + (j + 1) = i + 1 + j := by omega
        rw [hidx] at hat
        rw [ih (i + 1) _ hz j (by simpa using hj) hat (fun j2 hlt hj2 => by
          have h1 := hlast (j2 + 1) (by omega) (by simp only [List.length_cons]; omega)
          have hidx2 : i + (j2 + 1) = i + 1 + j2 := by omega
          rw [hidx2] at h1
          exact h1)]
        simp

/-- C14: when the reader delivers every record of the input without error
(the first record and, after it, records of the same field count), `readCSV`
takes the first record as the header and returns one Row per later record,
`k - 1` Rows for `k` records, in scan order, the `i`-th Row built from the
`(i+1)`-th record; no record is filtered out. -/
theorem readCSV_one_row_per_record (fs : FileSystem) (file : String) (first : String)
    (more : List String) (pending : List RawRecord)
    (hopen : fs.openCSV file = Except.ok (RawRecord.fields first more :: pending))
    (hparsed : ∀ raw ∈ pending, ∃ f m, raw = RawRecord.fields f m ∧
      (f :: m).length = (first :: more).length) :
    ∃ rows, readCSV fs file = Res.ok rows ∧
      rows.length + 1 = (RawRecord.fields first more :: pending).length ∧
      List.Forall₂ (fun raw row => ∃ f m, raw = RawRecord.fields f m ∧
        zipEntry (first :: more) (f :: m) 0 [] = some row) pending rows := by
  obtain ⟨rows, hok⟩ := readCSVLoop_header_ok (first :: more) (by simp) pending [] hparsed
  have hread : readCSV fs file = Res.ok rows :=
    (readCSV_first fs file first more pending hopen).trans hok
  have hall := readCSV_rows fs file first more pending rows hopen hread
  refine ⟨rows, hread, ?_, hall.imp ?_⟩
  · rw [List.length_cons, hall.length_eq]
  · rintro raw row ⟨f, m, hraw, _, hz⟩
    exact ⟨f, m, hraw, hz⟩

/-- Witness of C14: a header and three records, the last one all empty, give
three Rows in order. -/
theorem readCSV_one_row_per_record_witness :
    ∃ rows, readCSV (csvOnly [RawRecord.fields "id" ["name"], RawRecord.fields "1" ["Alice"],
        RawRecord.fields "2" ["Bob"], RawRecord.fields "" [""]]) "data.csv" = Res.ok rows ∧
      rows.length + 1 = 4 ∧
      List.Forall₂ (fun raw row => ∃ f m, raw = RawRecord.fields f m ∧
        zipEntry ("id" :: ["name"]) (f :: m) 0 [] = some row)
        [RawRecord.fields "1" ["Alice"], RawRecord.fields "2" ["Bob"],
          RawRecord.fields "" [""]] rows :=
  readCSV_one_row_per_record (csvOnly [RawRecord.fields "id" ["name"],
      RawRecord.fields "1" ["Alice"], RawRecord.fields "2" ["Bob"], RawRecord.fields "" [""]])
    "data.csv" "id" ["name"]
    [RawRecord.fields "1" ["Alice"], RawRecord.fields "2" ["Bob"], RawRecord.fields "" [""]]
    rfl
    (by
      intro raw hraw
      simp only [List.mem_cons, List.mem_singleton, List.not_mem_nil, or_false] at hraw
      rcases hraw with h | h | h <;> subst h
      · exact ⟨"1", ["Alice"], rfl, rfl⟩
      · exact ⟨"2", ["Bob"], rfl, rfl⟩
      · exact ⟨"", [""], rfl, rfl⟩)

/-- C15: the header is the first record as it stands, and the Row that
`readCSV` builds from a data record maps each header name to the record
field at the highest index at which the name occurs in the header: of equal
header names the last one's value wins. -/
theorem readCSV_last_duplicate_wins (fs : FileSystem) (file : String) (first : String)
    (more : List String) (pending : List RawRecord) (rows : List Row)
    (hopen : fs.openCSV file = Except.ok (RawRecord.fields first more :: pending))
    (hread : readCSV fs file = Res.ok rows) :
    List.Forall₂ (fun raw row => ∃ f m, raw = RawRecord.fields f m ∧
      (f :: m).length = (first :: more).length ∧
      ∀ (j : Nat) (name : String), (first :: more)[j]? = some name →
        (∀ j2 : Nat, j < j2 → (first :: more)[j2]? ≠ some name) →
        Row.get? row name = (f :: m)[j]?) pending rows := by
  refine (readCSV_rows fs file first more pending rows hopen hread).imp ?_
  rintro raw row ⟨f, m, hraw, hlen, hz⟩
  refine ⟨f, m, hraw, hlen, fun j name hat hlast => ?_⟩
  have hj : j < (f :: m).length := by
    rw [hlen]
    exact (List.getElem?_eq_some_iff.mp hat).1
  refine zipEntry_get_last (first :: more) (f :: m) 0 [] row name hz j hj ?_ ?_
  · rw [Nat.zero_add]
    exact hat
  · intro j2 hlt _
    rw [Nat.zero_add]
    exact hlast j2 hlt

/-- Witness of C15: under the header `a`, `b`, `a` the record `1`, `2`, `3`
gives a Row that maps `a` to `3`. -/
theorem readCSV_last_duplicate_wins_witness :
    readCSV (csvOnly [RawRecord.fields "a" ["b", "a"], RawRecord.fields "1" ["2", "3"]])
        "data.csv" = Res.ok [[("a", "3"), ("b", "2")]] ∧
    List.Forall₂ (fun raw row => ∃ f m, raw = RawRecord.fields f m ∧
      (f :: m).length = ("a" :: ["b", "a"]).length ∧
      ∀ (j : Nat) (name : String), ("a" :: ["b", "a"])[j]? = some name →
        (∀ j2 : Nat, j < j2 → ("a" :: ["b", "a"])[j2]? ≠ some name) →
        Row.get? row name = (f :: m)[j]?)
      [RawRecord.fields "1" ["2", "3"]] [[("a", "3"), ("b", "2")]] :=
  ⟨rfl, readCSV_last_duplicate_wins (csvOnly [RawRecord.fields "a" ["b", "a"],
      RawRecord.fields "1" ["2", "3"]]) "data.csv" "a" ["b", "a"]
    [RawRecord.fields "1" ["2", "3"]] [[("a", "3"), ("b", "2")]] rfl rfl⟩

/-- C16: `readCSV` never indexes the header out of range. Whatever records
the reader delivers, `readCSV` returns Rows or an error and does not panic;
the first record whose field count differs from the header's makes it return
the field-count error; and every record it turns into a Row has at most
`len(header)` fields. -/
theorem readCSV_header_index_in_bounds (fs : FileSystem) (file : String) :
    readCSV fs file ≠ Res.panic ∧
    (∀ first more good bf bm rest,
      fs.openCSV file = Except.ok
        (RawRecord.fields first more :: (good ++ RawRecord.fields bf bm :: rest)) →
      (∀ raw ∈ good, ∃ f m, raw = RawRecord.fields f m ∧
        (f :: m).length = (first :: more).length) →
      (bf :: bm).length ≠ (first :: more).length →
      readCSV fs file = Res.error Err.fieldCount) ∧
    (∀ first more pending rows,
      fs.openCSV file = Except.ok (RawRecord.fields first more :: pending) →
      readCSV fs file = Res.ok rows →
      List.Forall₂ (fun raw row => ∃ f m, raw = RawRecord.fields f m ∧
        (f :: m).length ≤ (first :: more).length ∧
        zipEntry (first :: more) (f :: m) 0 [] = some row) pending rows) := by
  refine ⟨?_, ?_, ?_⟩
  · intro hp
    rcases readCSV_total fs file with ⟨rows, h⟩ | ⟨err, h⟩
    · rw [h] at hp; cases hp
    · rw [h] at hp; cases hp
  · intro first more good bf bm rest hopen hgood hbad
    rw [readCSV_first fs file first more _ hopen]
    exact readCSVLoop_header_ragged (first :: more) (by simp) good rest bf bm [] hgood hbad
  · intro first more pending rows hopen hread
    refine (readCSV_rows fs file first more pending rows hopen hread).imp ?_
    rintro raw row ⟨f, m, hraw, hlen, hz⟩
    exact ⟨f, m, hraw, by omega, hz⟩

/-- Witness of C16: after the header `id`, `name` and the record `1`, `Alice`
the longer record `2`, `Bob`, `x` is the field-count error. -/
theorem readCSV_header_index_in_bounds_witness :
    readCSV (csvOnly [RawRecord.fields "id" ["name"], RawRecord.fields "1" ["Alice"],
        RawRecord.fields "2" ["Bob", "x"]]) "data.csv" = Res.error Err.fieldCount :=
  (readCSV_header_index_in_bounds (csvOnly [RawRecord.fields "id" ["name"],
      RawRecord.fields "1" ["Alice"], RawRecord.fields "2" ["Bob", "x"]]) "data.csv").2.1
    "id" ["name"] [RawRecord.fields "1" ["Alice"]] "2" ["Bob", "x"] [] rfl
    (by
      intro raw hraw
      rw [List.mem_singleton] at hraw
      subst hraw
      exact ⟨"1", ["Alice"], rfl, rfl⟩)
    (by decide)

/-- C17: the rows `Files` hands to `New` are those of the last table file of
the list, `.csv` or `.xlsx` alike, even when it yields no row, and with a
template that parses `Files` then returns "no input found"; so it does for a
workbook with a data row followed by a delimited-text table that holds its
header line only. -/
theorem Files_tables_share_slot (E : Engine) (fs : FileSystem) (pre post : List String)
    (f : String) (rows : List Row) (hreads : readsSucceed fs (pre ++ f :: post))
    (hf : tableRows fs f rows) (hpost : ∀ g ∈ post, notTable g) :
    (∃ text, filesLoop fs (pre ++ f :: post) [] "" = Res.ok (rows, text) ∧
      Files E fs (pre ++ f :: post) = Res.ofExcept (New E rows text) ∧
      ((∃ t, E.Parse text = Except.ok t) → rows = [] →
        Files E fs (pre ++ f :: post) = Res.error Err.noInputFound)) ∧
    (readXLSX mixedTables "dir/a.xlsx" = Res.ok [[("id", "1")]] ∧
      readCSV mixedTables "dir/b.csv" = Res.ok [] ∧
      Files (htmlTemplate "") mixedTables ["dir/a.xlsx", "dir/b.csv"]
        = Res.error Err.noInputFound) := by
  refine ⟨?_, rfl, rfl, rfl⟩
  obtain ⟨text, hloop⟩ := filesLoop_last_table fs pre post f rows [] "" hreads hf hpost
  have hfiles : Files E fs (pre ++ f :: post) = Res.ofExcept (New E rows text) := by
    unfold Files
    rw [hloop]
  refine ⟨text, hloop, hfiles, ?_⟩
  rintro ⟨t, ht⟩ hrows
  subst hrows
  rw [hfiles]
  simp [New, ht, Res.ofExcept]

/-- Witness of C17: the workbook's row is read first and the header-only
table after it leaves no rows for `New`. -/
theorem Files_tables_share_slot_witness :
    ∃ text, filesLoop mixedTables (["dir/a.xlsx"] ++ "dir/b.csv" :: []) [] ""
        = Res.ok ([], text) ∧
      Files (htmlTemplate "") mixedTables (["dir/a.xlsx"] ++ "dir/b.csv" :: [])
        = Res.ofExcept (New (htmlTemplate "") [] text) ∧
      ((∃ t, (htmlTemplate "").Parse text = Except.ok t) → ([] : List Row) = [] →
        Files (htmlTemplate "") mixedTables (["dir/a.xlsx"] ++ "dir/b.csv" :: [])
          = Res.error Err.noInputFound) :=
  (Files_tables_share_slot (htmlTemplate "") mixedTables ["dir/a.xlsx"] [] "dir/b.csv" []
    (by
      intro f hf
      simp only [List.cons_append, List.nil_append, List.mem_cons, List.mem_singleton,
        List.not_mem_nil, or_false] at hf
      rcases hf with h | h <;> subst h
      · exact ⟨fun h => absurd h (by decide), fun h => absurd h (by decide), fun _ => ⟨_, rfl⟩⟩
      · exact ⟨fun _ => ⟨_, rfl⟩, fun h => absurd h (by decide), fun h => absurd h (by decide)⟩)
    (Or.inl ⟨by decide, rfl⟩) (by intro g hg; cases hg)).1

end Mksql
